import Mathlib

/-!
# Verification of the transaction reassembly engine

A shallow embedding, in Lean 4, of the transaction-indexing core of the
near-staking-indexer repository (`src/transactions.rs`, `src/model.rs`,
`src/main.rs`), together with proofs and refutations of the frozen claims
about its specification.

Modelling conventions:

* `CryptoHash` values are modelled as `Nat` (the code only compares, copies
  and stores them); `AccountId` is modelled as `String` (the code compares
  account ids as strings and runs regular expressions over them).
* `HashMap` fields are modelled as association lists with map semantics:
  `mlookup` returns the first binding, `mremove` deletes a key, `minsert`
  replaces a binding.  `BTreeMap` (used for `block_headers`, iterated in
  ascending key order) is modelled as an association list kept sorted by key
  by `btInsert`; its `keys().next()` is then the head of the list.
* Rust panics (`panic!`, `expect`, `unreachable!`, and the `assert_eq!`
  calls inside the cache insert helpers) are modelled as `Except.error` with
  the panic message; `process_block` therefore returns `Except String`.
* External library functions that the extraction logic calls
  (`serde_json::from_slice`, `serde_json::from_str`, `AccountId::from_str`,
  `Regex::is_match`) are taken as parameters, bundled in `ExtractCtx`: the
  claims under study are about the control flow around them, not about JSON
  or regular-expression semantics.
* The Postgres sink is modelled in two parts: the retry loop
  `insert_rows_with_retry` is modelled directly over an abstract sequence of
  attempt results, and at the `process_block` level a successful commit is
  modelled as moving the buffered rows into a `committed` ledger.
-/

/-! ## Basic identifiers -/

abbrev Hash := Nat

abbrev BlockHeight := Nat

abbrev AccountId := String

/-! ## Association-list maps (model of `HashMap`)

`mlookup` returns the first binding of a key, `mremove` deletes every
binding of a key, and `minsert` replaces the binding of a key, as
`HashMap::get` / `HashMap::remove` / `HashMap::insert` do. -/

def mlookup {α : Type} : List (Nat × α) → Nat → Option α
  | [], _ => none
  | p :: t, k => if p.1 = k then some p.2 else mlookup t k

def mremove {α : Type} : List (Nat × α) → Nat → List (Nat × α)
  | [], _ => []
  | p :: t, k => if p.1 = k then mremove t k else p :: mremove t k

def minsert {α : Type} (l : List (Nat × α)) (k : Nat) (v : α) : List (Nat × α) :=
  (k, v) :: mremove l k

theorem mlookup_mremove {α : Type} (l : List (Nat × α)) (k x : Nat) :
    mlookup (mremove l k) x = if x = k then none else mlookup l x := by
  induction l with
  | nil => simp [mremove, mlookup]
  | cons p t ih =>
    by_cases hp : p.1 = k
    · rw [mremove, if_pos hp, ih]
      by_cases hx : x = k
      · rw [if_pos hx, if_pos hx]
      · rw [if_neg hx, if_neg hx, mlookup, if_neg (by omega : ¬ p.1 = x)]
    · rw [mremove, if_neg hp, mlookup]
      by_cases hq : p.1 = x
      · rw [if_pos hq, if_neg (by omega : ¬ x = k), mlookup, if_pos hq]
      · rw [if_neg hq, ih]
        by_cases hx : x = k
        · rw [if_pos hx, if_pos hx]
        · rw [if_neg hx, if_neg hx, mlookup, if_neg hq]

theorem mlookup_minsert {α : Type} (l : List (Nat × α)) (k x : Nat) (v : α) :
    mlookup (minsert l k v) x = if x = k then some v else mlookup l x := by
  rw [minsert, mlookup]
  by_cases hx : x = k
  · rw [if_pos hx, if_pos (by omega : k = x)]
  · rw [if_neg hx, if_neg (by omega : ¬ k = x), mlookup_mremove, if_neg hx]

/-- `purge m ids` removes every id in `ids` from the map `m`; it models the
abandonment loop `for receipt_id in &pt.pending_receipt_ids { remove }`. -/
def purge {α : Type} (m : List (Nat × α)) (ids : List Nat) : List (Nat × α) :=
  ids.foldl (fun m r => mremove m r) m

theorem mlookup_purge {α : Type} (ids : List Nat) (m : List (Nat × α)) (x : Nat) :
    mlookup (purge m ids) x = if x ∈ ids then none else mlookup m x := by
  induction ids generalizing m with
  | nil => simp [purge]
  | cons i t ih =>
    have step : purge m (i :: t) = purge (mremove m i) t := by
      simp [purge, List.foldl_cons]
    rw [step, ih, mlookup_mremove]
    by_cases hx : x ∈ i :: t
    · rw [if_pos hx]
      rcases List.mem_cons.mp hx with h | h
      · by_cases hxt : x ∈ t
        · rw [if_pos hxt]
        · rw [if_neg hxt, if_pos h]
      · rw [if_pos h]
    · have hxi : ¬ x = i := fun h => hx (by simp [h])
      have hxt : x ∉ t := fun h => hx (List.mem_cons_of_mem _ h)
      rw [if_neg hx, if_neg hxt, if_neg hxi]

/-! ## Sorted association list (model of `BTreeMap<BlockHeight, _>`) -/

def btInsert {α : Type} : List (Nat × α) → Nat → α → List (Nat × α)
  | [], k, v => [(k, v)]
  | p :: t, k, v =>
    if k < p.1 then (k, v) :: p :: t
    else if k = p.1 then (k, v) :: t
    else p :: btInsert t k v

theorem mlookup_btInsert {α : Type} (l : List (Nat × α)) (k x : Nat) (v : α) :
    mlookup (btInsert l k v) x = if x = k then some v else mlookup l x := by
  induction l with
  | nil =>
    by_cases hx : x = k
    · subst hx; simp [btInsert, mlookup]
    · have hk : ¬ k = x := by omega
      simp [btInsert, mlookup, hk, hx]
  | cons p t ih =>
    by_cases h1 : k < p.1
    · rw [btInsert, if_pos h1, mlookup]
      by_cases hx : x = k
      · rw [if_pos (by omega : k = x), if_pos hx]
      · rw [if_neg (by omega : ¬ k = x), if_neg hx, mlookup]
    · by_cases h2 : k = p.1
      · rw [btInsert, if_neg h1, if_pos h2, mlookup]
        by_cases hx : x = k
        · rw [if_pos (by omega : k = x), if_pos hx]
        · rw [if_neg (by omega : ¬ k = x), if_neg hx, mlookup,
            if_neg (by omega : ¬ p.1 = x)]
      · rw [btInsert, if_neg h1, if_neg h2, mlookup]
        by_cases hp : p.1 = x
        · rw [if_pos hp, if_neg (by omega : ¬ x = k), mlookup, if_pos hp]
        · rw [if_neg hp, ih]
          by_cases hx : x = k
          · rw [if_pos hx, if_pos hx]
          · rw [if_neg hx, if_neg hx, mlookup, if_neg hp]

/-- Keys of a sorted association list are strictly increasing. -/
def SortedKeys {α : Type} (l : List (Nat × α)) : Prop :=
  List.Pairwise (fun p q => p.1 < q.1) l

theorem mremove_sublist {α : Type} (l : List (Nat × α)) (k : Nat) :
    (mremove l k).Sublist l := by
  induction l with
  | nil => simp [mremove]
  | cons p t ih =>
    by_cases hk : p.1 = k
    · simpa [mremove, hk] using ih.cons p
    · simpa [mremove, hk] using ih.cons₂ p

theorem sortedKeys_mremove {α : Type} (l : List (Nat × α)) (k : Nat)
    (h : SortedKeys l) : SortedKeys (mremove l k) :=
  h.sublist (mremove_sublist l k)

theorem mem_btInsert {α : Type} (l : List (Nat × α)) (k : Nat) (v : α)
    (q : Nat × α) (hq : q ∈ btInsert l k v) : q = (k, v) ∨ q ∈ l := by
  induction l with
  | nil => simpa [btInsert] using hq
  | cons p t ih =>
    by_cases h1 : k < p.1
    · rw [btInsert, if_pos h1] at hq
      rcases List.mem_cons.mp hq with h | h
      · exact Or.inl h
      · exact Or.inr h
    · by_cases h2 : k = p.1
      · rw [btInsert, if_neg h1, if_pos h2] at hq
        rcases List.mem_cons.mp hq with h | h
        · exact Or.inl h
        · exact Or.inr (List.mem_cons_of_mem _ h)
      · rw [btInsert, if_neg h1, if_neg h2] at hq
        rcases List.mem_cons.mp hq with h | h
        · exact Or.inr (by simp [h])
        · rcases ih h with h' | h'
          · exact Or.inl h'
          · exact Or.inr (List.mem_cons_of_mem _ h')

theorem sortedKeys_btInsert {α : Type} (l : List (Nat × α)) (k : Nat) (v : α)
    (h : SortedKeys l) : SortedKeys (btInsert l k v) := by
  induction l with
  | nil => simp only [btInsert]; exact List.pairwise_singleton _ _
  | cons p t ih =>
    rcases h with _ | ⟨hp, ht⟩
    by_cases h1 : k < p.1
    · rw [SortedKeys, btInsert, if_pos h1]
      refine List.Pairwise.cons ?_ (List.Pairwise.cons hp ht)
      intro q hq
      rcases List.mem_cons.mp hq with h | h
      · subst h; exact h1
      · have := hp q h; omega
    · by_cases h2 : k = p.1
      · rw [SortedKeys, btInsert, if_neg h1, if_pos h2]
        refine List.Pairwise.cons ?_ ht
        intro q hq
        have := hp q hq
        simpa [h2] using this
      · have hlt : p.1 < k := by omega
        rw [SortedKeys, btInsert, if_neg h1, if_neg h2]
        refine List.Pairwise.cons ?_ (ih ht)
        intro q hq
        rcases mem_btInsert t k v q hq with h | h
        · subst h; exact hlt
        · exact hp q h

/-! ## Header trimming (model of `TxCache::trim_headers`)

The code pops `block_headers.keys().next()` — the smallest key of the
`BTreeMap` — while the map holds more than `BLOCK_HEADER_CLEANUP` entries.
On the sorted-list model the smallest key is the head of the list. -/

def BLOCK_HEADER_CLEANUP : Nat := 2000

def SAVE_STEP : Nat := 1000

def trimHeadersList {α : Type} : List (Nat × α) → List (Nat × α)
  | [] => []
  | p :: t => if BLOCK_HEADER_CLEANUP < t.length + 1 then trimHeadersList t else p :: t

theorem trimHeadersList_length_le {α : Type} (l : List (Nat × α)) :
    (trimHeadersList l).length ≤ BLOCK_HEADER_CLEANUP := by
  induction l with
  | nil => simp [trimHeadersList, BLOCK_HEADER_CLEANUP]
  | cons p t ih =>
    rw [trimHeadersList]
    by_cases h : BLOCK_HEADER_CLEANUP < t.length + 1
    · rw [if_pos h]; exact ih
    · rw [if_neg h]; simpa using Nat.le_of_not_lt h

theorem trimHeadersList_eq_drop {α : Type} (l : List (Nat × α)) :
    trimHeadersList l = l.drop (l.length - BLOCK_HEADER_CLEANUP) := by
  induction l with
  | nil => simp [trimHeadersList]
  | cons p t ih =>
    rw [trimHeadersList]
    by_cases h : BLOCK_HEADER_CLEANUP < t.length + 1
    · rw [if_pos h, ih]
      have hlen : (p :: t).length - BLOCK_HEADER_CLEANUP = (t.length - BLOCK_HEADER_CLEANUP) + 1 := by
        simp only [List.length_cons]; omega
      rw [hlen, List.drop_succ_cons]
    · rw [if_neg h]
      have hlen : (p :: t).length - BLOCK_HEADER_CLEANUP = 0 := by
        simp only [List.length_cons]; omega
      rw [hlen, List.drop_zero]

theorem trimHeadersList_sorted {α : Type} (l : List (Nat × α)) (h : SortedKeys l) :
    SortedKeys (trimHeadersList l) := by
  rw [trimHeadersList_eq_drop]
  exact h.sublist (List.drop_sublist _ _)

/-- On a height-sorted header list, every evicted entry is older (has a
strictly smaller height) than every retained entry. -/
theorem trimHeadersList_evicts_oldest {α : Type} (l : List (Nat × α))
    (h : SortedKeys l) :
    ∀ q ∈ l.take (l.length - BLOCK_HEADER_CLEANUP), ∀ q' ∈ trimHeadersList l, q.1 < q'.1 := by
  intro q hq q' hq'
  rw [trimHeadersList_eq_drop] at hq'
  have := List.pairwise_append.mp
    (by rw [List.take_append_drop (l.length - BLOCK_HEADER_CLEANUP) l]; exact h)
  exact this.2.2 q hq q' hq'

/-! ## Upstream data model

Shallow embedding of the `near_primitives` view types used by the engine.
Only the fields the engine reads, writes or strips are carried; opaque
payload fields (`actions` bodies, `status`, serialized arguments) are
abstracted to plain carriers. -/

structure BlockHeaderView where
  height : BlockHeight
  hash : Hash
  timestamp : Nat
deriving DecidableEq, Repr

structure ExecutionMetadataView where
  version : Nat
  gas_profile : Option (List Nat)
deriving DecidableEq, Repr

structure ExecutionOutcomeView where
  logs : List String
  receipt_ids : List Hash
  gas_burnt : Nat
  tokens_burnt : Nat
  executor_id : AccountId
  status : Nat
  metadata : ExecutionMetadataView
deriving DecidableEq, Repr

structure ExecutionOutcomeWithIdView where
  proof : List Nat
  block_hash : Hash
  id : Hash
  outcome : ExecutionOutcomeView
deriving DecidableEq, Repr

/-- An action body: `functionCall args` carries an abstract handle to the
serialized argument blob (parsed through `ExtractCtx.parse_args`); every
other action variant contributes no accounts and is collapsed to `other`. -/
inductive ActionView where
  | functionCall (args : Nat)
  | other
deriving DecidableEq, Repr

inductive ReceiptEnumView where
  | action (input_data_ids : List Hash) (actions : List ActionView)
  | data (data_id : Hash)
deriving DecidableEq, Repr

structure ReceiptView where
  predecessor_id : AccountId
  receiver_id : AccountId
  receipt_id : Hash
  receipt : ReceiptEnumView
deriving DecidableEq, Repr

structure SignedTransactionView where
  hash : Hash
  signer_id : AccountId
deriving DecidableEq, Repr

structure IndexerExecutionOutcomeWithReceipt where
  execution_outcome : ExecutionOutcomeWithIdView
  receipt : ReceiptView
deriving DecidableEq, Repr

/-- A chunk transaction with its conversion outcome (the code reads
`outcome.execution_outcome` of `IndexerTransactionWithOutcome`). -/
structure IndexerTransactionWithOutcome where
  transaction : SignedTransactionView
  execution_outcome : ExecutionOutcomeWithIdView
deriving DecidableEq, Repr

structure ChunkView where
  transactions : List IndexerTransactionWithOutcome
  receipts : List ReceiptView
deriving DecidableEq, Repr

structure IndexerShard where
  chunk : Option ChunkView
  receipt_execution_outcomes : List IndexerExecutionOutcomeWithReceipt
deriving DecidableEq, Repr

structure BlockView where
  header : BlockHeaderView
deriving DecidableEq, Repr

structure BlockWithTxHashes where
  block : BlockView
  shards : List IndexerShard
deriving DecidableEq, Repr

/-! ## Engine data model (`transactions.rs`) -/

structure TransactionView where
  transaction : SignedTransactionView
  execution_outcome : ExecutionOutcomeWithIdView
  receipts : List IndexerExecutionOutcomeWithReceipt
  data_receipts : List ReceiptView
deriving DecidableEq, Repr

structure PendingTransaction where
  tx_block_height : BlockHeight
  tx_block_hash : Hash
  tx_block_timestamp : Nat
  blocks : List BlockHeight
  transaction : TransactionView
  pending_receipt_ids : List Hash
deriving DecidableEq, Repr

def PendingTransaction.transaction_hash (p : PendingTransaction) : Hash :=
  p.transaction.transaction.hash

structure WatchListEntry where
  account_id : String
  is_regex : Bool
deriving DecidableEq, Repr

/-- `fn trim_execution_outcome`: clears the proof list and drops the
gas-profile sub-field of the metadata. -/
def trim_execution_outcome (execution_outcome : ExecutionOutcomeWithIdView) :
    ExecutionOutcomeWithIdView :=
  { execution_outcome with
    proof := []
    outcome := { execution_outcome.outcome with
      metadata := { execution_outcome.outcome.metadata with gas_profile := none } } }

/-! ## Row sets -/

structure TransactionRow where
  transaction_hash : Hash
  signer_id : AccountId
  tx_block_height : BlockHeight
  tx_block_hash : Hash
  tx_block_timestamp : Nat
  transaction : TransactionView
  last_block_height : BlockHeight
deriving DecidableEq, Repr

structure AccountTxRow where
  account_id : AccountId
  transaction_hash : Hash
  signer_id : AccountId
  tx_block_height : BlockHeight
  tx_block_timestamp : Nat
deriving DecidableEq, Repr

structure BlockTxRow where
  block_height : BlockHeight
  block_hash : Hash
  block_timestamp : Nat
  transaction_hash : Hash
  signer_id : AccountId
  tx_block_height : BlockHeight
deriving DecidableEq, Repr

structure ReceiptTxRow where
  receipt_id : Hash
  transaction_hash : Hash
  signer_id : AccountId
  tx_block_height : BlockHeight
  tx_block_timestamp : Nat
deriving DecidableEq, Repr

structure TxRows where
  transactions : List TransactionRow
  account_txs : List AccountTxRow
  block_txs : List BlockTxRow
  receipt_txs : List ReceiptTxRow
deriving DecidableEq, Repr

def emptyTxRows : TxRows := ⟨[], [], [], []⟩

def appendTxRows (a b : TxRows) : TxRows :=
  ⟨a.transactions ++ b.transactions, a.account_txs ++ b.account_txs,
   a.block_txs ++ b.block_txs, a.receipt_txs ++ b.receipt_txs⟩

/-! ## Account extraction (`extract_accounts`, `add_accounts_from_*`)

The JSON and account-id parsing done by `serde_json` / `AccountId::from_str`
and the regular-expression engine are abstracted behind `ExtractCtx`; the
surrounding control flow is embedded exactly.  `HashSet<AccountId>` is
modelled as a duplicate-free list built by `hsInsert`. -/

/-- The result of `value.get(arg)` followed by `as_str()`: a JSON object is
a list of fields, each carrying the `as_str` view of its value. -/
structure JField where
  key : String
  str : Option String
deriving DecidableEq, Repr

abbrev JValue := List JField

structure EventJson where
  version : String
  standard : String
  event : String
  data : List JValue
deriving DecidableEq, Repr

/-- External parsers and matchers used by the extraction and filter logic:
`valid_account` is `AccountId::from_str`, `parse_args` is
`serde_json::from_slice` on a function-call argument blob, `parse_event` is
`serde_json::from_str::<EventJson>`, and `regex_match pat s` is
`Regex::new(pat).unwrap().is_match(s)`. -/
structure ExtractCtx where
  valid_account : String → Option AccountId
  parse_args : Nat → Option JValue
  parse_event : String → Option EventJson
  regex_match : String → String → Bool

def POTENTIAL_ACCOUNT_ARGS : List String :=
  ["receiver_id", "account_id", "sender_id", "new_account_id",
   "predecessor_account_id", "contract_id", "owner_id", "token_owner_id",
   "nft_contract_id", "token_account_id", "creator_id", "referral_id",
   "previous_owner_id", "seller_id", "buyer_id", "user_id", "beneficiary_id",
   "staking_pool_account_id", "owner_account_id", "claimer", "bounty_owner"]

def POTENTIAL_EVENTS_ARGS : List String :=
  ["account_id", "owner_id", "old_owner_id", "new_owner_id", "payer_id",
   "farmer_id", "validator_id", "liquidation_account_id", "contract_id",
   "nft_contract_id"]

def EVENT_JSON_PREFIX : String := "EVENT_JSON:"

/-- `HashSet::insert`. -/
def hsInsert (l : List AccountId) (a : AccountId) : List AccountId :=
  if a ∈ l then l else l ++ [a]

def jget (value : JValue) (arg : String) : Option JField :=
  value.find? (fun f => f.key == arg)

def extract_accounts (ctx : ExtractCtx) (accounts : List AccountId)
    (value : JValue) (keys : List String) : List AccountId :=
  keys.foldl
    (fun acc arg =>
      match jget value arg with
      | some f =>
        match f.str with
        | some s =>
          match ctx.valid_account s with
          | some account_id => hsInsert acc account_id
          | none => acc
        | none => acc
      | none => acc)
    accounts

def add_accounts_from_logs (ctx : ExtractCtx) (accounts : List AccountId)
    (logs : List String) : List AccountId :=
  logs.foldl
    (fun acc log =>
      if log.startsWith EVENT_JSON_PREFIX then
        match ctx.parse_event (log.drop ( EVENT_JSON_PREFIX.length)) with
        | some event =>
          event.data.foldl (fun a d => extract_accounts ctx a d POTENTIAL_EVENTS_ARGS) acc
        | none => acc
      else acc)
    accounts

def add_accounts_from_receipt (ctx : ExtractCtx) (accounts : List AccountId)
    (receipt : ReceiptView) : List AccountId :=
  let accounts := hsInsert accounts receipt.receiver_id
  match receipt.receipt with
  | .action _ actions =>
    actions.foldl
      (fun acc action =>
        match action with
        | .functionCall args =>
          match ctx.parse_args args with
          | some value => extract_accounts ctx acc value POTENTIAL_ACCOUNT_ARGS
          | none => acc
        | .other => acc)
      accounts
  | .data _ => accounts

/-- `TransactionsData::get_accounts_from_transaction`. -/
def get_accounts_from_transaction (ctx : ExtractCtx)
    (transaction : PendingTransaction) : List AccountId :=
  let accounts := hsInsert [] transaction.transaction.transaction.signer_id
  transaction.transaction.receipts.foldl
    (fun acc r =>
      add_accounts_from_logs ctx
        (add_accounts_from_receipt ctx acc r.receipt)
        r.execution_outcome.outcome.logs)
    accounts

/-- `TransactionsData::some_account_in_watch_list`. -/
def some_account_in_watch_list (ctx : ExtractCtx)
    (watch_list : List WatchListEntry) (transaction : PendingTransaction) : Bool :=
  let accounts := get_accounts_from_transaction ctx transaction
  watch_list.any (fun e =>
    accounts.any (fun a =>
      if e.is_regex then ctx.regex_match e.account_id a else a == e.account_id))

/-! ## The reassembly cache (`TxCache`) -/

structure TxCache where
  block_headers : List (BlockHeight × BlockHeaderView)
  receipt_to_tx : List (Hash × Hash)
  data_receipts : List (Hash × ReceiptView)
  transactions : List (Hash × PendingTransaction)
  last_block_height : BlockHeight
deriving DecidableEq, Repr

/-- `TxCache::insert_block_header`; the `assert_eq!` on a hash mismatch at
an already-present height is a fatal violation. -/
def TxCache.insert_block_header (c : TxCache) (block_header : BlockHeaderView) :
    Except String TxCache :=
  match mlookup c.block_headers block_header.height with
  | some old_header =>
    if old_header.hash = block_header.hash then
      .ok { c with block_headers := btInsert c.block_headers block_header.height block_header }
    else .error "Header mismatch"
  | none =>
    .ok { c with block_headers := btInsert c.block_headers block_header.height block_header }

def TxCache.get_and_remove_block_header (c : TxCache) (block_height : BlockHeight) :
    Option BlockHeaderView × TxCache :=
  match mlookup c.block_headers block_height with
  | some h => (some h, { c with block_headers := mremove c.block_headers block_height })
  | none => (none, c)

def TxCache.get_and_remove_receipt_to_tx (c : TxCache) (receipt_id : Hash) :
    Option Hash × TxCache :=
  match mlookup c.receipt_to_tx receipt_id with
  | some tx_hash => (some tx_hash, { c with receipt_to_tx := mremove c.receipt_to_tx receipt_id })
  | none => (none, c)

/-- `TxCache::insert_receipt_to_tx`; remapping a receipt id to a different
transaction hash is a fatal violation. -/
def TxCache.insert_receipt_to_tx (c : TxCache) (receipt_id : Hash) (tx_hash : Hash) :
    Except String TxCache :=
  match mlookup c.receipt_to_tx receipt_id with
  | some old_tx_hash =>
    if old_tx_hash = tx_hash then
      .ok { c with receipt_to_tx := minsert c.receipt_to_tx receipt_id tx_hash }
    else .error "Duplicate receipt_id with different TX HASHES"
  | none => .ok { c with receipt_to_tx := minsert c.receipt_to_tx receipt_id tx_hash }

def TxCache.remove_receipt_to_tx (c : TxCache) (receipt_id : Hash) : TxCache :=
  { c with receipt_to_tx := mremove c.receipt_to_tx receipt_id }

/-- `TxCache::insert_data_receipt`; the same data id with a different
receipt id is a fatal violation. -/
def TxCache.insert_data_receipt (c : TxCache) (data_id : Hash) (receipt : ReceiptView) :
    Except String TxCache :=
  match mlookup c.data_receipts data_id with
  | some old_receipt =>
    if old_receipt.receipt_id = receipt.receipt_id then
      .ok { c with data_receipts := minsert c.data_receipts data_id receipt }
    else .error "Duplicate data_id with different receipt_id"
  | none => .ok { c with data_receipts := minsert c.data_receipts data_id receipt }

def TxCache.get_and_remove_data_receipt (c : TxCache) (data_id : Hash) :
    Option ReceiptView × TxCache :=
  match mlookup c.data_receipts data_id with
  | some r => (some r, { c with data_receipts := mremove c.data_receipts data_id })
  | none => (none, c)

def TxCache.get_and_remove_transaction (c : TxCache) (tx_hash : Hash) :
    Option PendingTransaction × TxCache :=
  match mlookup c.transactions tx_hash with
  | some pt => (some pt, { c with transactions := mremove c.transactions tx_hash })
  | none => (none, c)

def TxCache.trim_headers (c : TxCache) : TxCache :=
  { c with block_headers := trimHeadersList c.block_headers }

/-- An error-propagating left fold: the shape of every `for` loop in the
engine, with panics surfacing as `Except.error`. -/
def foldE {σ α : Type} (f : σ → α → Except String σ) : σ → List α → Except String σ
  | s, [] => .ok s
  | s, x :: t =>
    match f s x with
    | .ok s' => foldE f s' t
    | .error e => .error e

/-- `TxCache::insert_transaction`: registers every id of
`pending_receipt_ids` in `receipt_to_tx` under the transaction's hash, then
stores the pending transaction. -/
def TxCache.insert_transaction (c : TxCache) (pending_transaction : PendingTransaction)
    (pending_receipt_ids : List Hash) : Except String TxCache :=
  let tx_hash := pending_transaction.transaction_hash
  match foldE (fun c r => c.insert_receipt_to_tx r tx_hash) c pending_receipt_ids with
  | .ok c' => .ok { c' with transactions := minsert c'.transactions tx_hash pending_transaction }
  | .error e => .error e

/-! ## The block processor (`TransactionsData::process_block`) -/

/-- Chunk pass, per submitted transaction: strip the outcome, build the
fresh `PendingTransaction` with `blocks = [block_height]` and the outcome's
spawned receipt ids as its pending set, and register it. -/
def process_chunk_transaction (header : BlockHeaderView) (cache : TxCache)
    (t : IndexerTransactionWithOutcome) : Except String TxCache :=
  let pending_receipt_ids := t.execution_outcome.outcome.receipt_ids
  let execution_outcome := trim_execution_outcome t.execution_outcome
  let pending_transaction : PendingTransaction :=
    { tx_block_height := header.height
      tx_block_hash := header.hash
      tx_block_timestamp := header.timestamp
      blocks := [header.height]
      transaction :=
        { transaction := t.transaction
          execution_outcome := execution_outcome
          receipts := []
          data_receipts := [] }
      pending_receipt_ids := pending_receipt_ids }
  cache.insert_transaction pending_transaction pending_receipt_ids

/-- Chunk pass, per spawned receipt: only Data receipts are recorded,
indexed by `data_id`; Action receipts are skipped. -/
def process_chunk_receipt (cache : TxCache) (receipt : ReceiptView) :
    Except String TxCache :=
  match receipt.receipt with
  | .action _ _ => .ok cache
  | .data data_id => cache.insert_data_receipt data_id receipt

def chunk_pass (header : BlockHeaderView) (cache : TxCache)
    (shards : List IndexerShard) : Except String TxCache :=
  foldE
    (fun cache shard =>
      match shard.chunk with
      | none => .ok cache
      | some chunk =>
        match foldE (process_chunk_transaction header) cache chunk.transactions with
        | .ok cache' => foldE process_chunk_receipt cache' chunk.receipts
        | .error e => .error e)
    cache shards

/-- The data-receipt fetch loop of the outcome pass: consume the input data
receipts in order, attaching each to the transaction; stop at the first
missing one (`missing` keeps the partially consumed cache, as the code's
`break` does). -/
inductive FetchData where
  | complete (cache : TxCache) (pt : PendingTransaction)
  | missing (cache : TxCache) (pt : PendingTransaction)
deriving Repr

def fetch_input_data : TxCache → PendingTransaction → List Hash → FetchData
  | cache, pt, [] => .complete cache pt
  | cache, pt, data_id :: rest =>
    match mlookup cache.data_receipts data_id with
    | some data_receipt =>
      fetch_input_data
        { cache with data_receipts := mremove cache.data_receipts data_id }
        { pt with transaction :=
            { pt.transaction with data_receipts := pt.transaction.data_receipts ++ [data_receipt] } }
        rest
    | none => .missing cache pt

/-- The completion-candidate transaction built at the tail of the outcome
pass: the (stripped outcome, receipt) pair is appended to the transaction's
receipts and the outcome's spawned receipt ids are appended to the pending
set. -/
def finish_ptE (execution_outcome : ExecutionOutcomeWithIdView) (receipt : ReceiptView)
    (ptC : PendingTransaction) : PendingTransaction :=
  let ptD := { ptC with transaction :=
    { ptC.transaction with
      receipts := ptC.transaction.receipts ++
        [({ execution_outcome := execution_outcome, receipt := receipt } :
          IndexerExecutionOutcomeWithReceipt)] } }
  { ptD with pending_receipt_ids := ptD.pending_receipt_ids ++
    execution_outcome.outcome.receipt_ids }

/-- Tail of the outcome-pass loop body, after the input data receipts have
been resolved: append the (outcome, receipt) pair, extend the pending set
with the outcome's spawned receipt ids, then either hand the transaction to
the completion filter (empty pending set) or re-insert it, registering the
newly spawned ids. -/
def finish_outcome (ctx : ExtractCtx) (watch_list : List WatchListEntry)
    (complete_transactions : List PendingTransaction)
    (execution_outcome : ExecutionOutcomeWithIdView) (receipt : ReceiptView)
    (cacheC : TxCache) (ptC : PendingTransaction) :
    Except String (TxCache × List PendingTransaction) :=
  let new_receipt_ids := execution_outcome.outcome.receipt_ids
  let ptE := finish_ptE execution_outcome receipt ptC
  if ptE.pending_receipt_ids = [] then
    if some_account_in_watch_list ctx watch_list ptE then
      .ok (cacheC, complete_transactions ++ [ptE])
    else .ok (cacheC, complete_transactions)
  else
    match cacheC.insert_transaction ptE new_receipt_ids with
    | .ok c' => .ok (c', complete_transactions)
    | .error e => .error e

/-- Middle of the outcome-pass loop body, once the owning transaction has
been removed from the cache and updated to `pt2`: resolve the executed
receipt's input data receipts.  A Data receipt in execution-outcome
position is a programming-error assertion; a missing input data receipt is
tolerated in skip mode by abandoning the transaction (purging its remaining
pending receipt→tx entries) and is fatal otherwise. -/
def resolve_outcome_data (ctx : ExtractCtx) (watch_list : List WatchListEntry)
    (skip_missing_receipts : Bool)
    (complete_transactions : List PendingTransaction)
    (execution_outcome : ExecutionOutcomeWithIdView) (receipt : ReceiptView)
    (cache : TxCache) (pt2 : PendingTransaction) :
    Except String (TxCache × List PendingTransaction) :=
  match receipt.receipt with
  | .data _ => .error "Data receipt should be processed before"
  | .action input_data_ids _ =>
    match fetch_input_data cache pt2 input_data_ids with
    | .missing cacheM ptM =>
      if skip_missing_receipts then
        .ok ({ cacheM with
            receipt_to_tx := purge cacheM.receipt_to_tx ptM.pending_receipt_ids },
          complete_transactions)
      else .error "Missing data receipt for data_id"
    | .complete cacheC ptC =>
      finish_outcome ctx watch_list complete_transactions execution_outcome receipt cacheC ptC

/-- The update applied to the owning pending transaction as soon as it is
removed from the cache: drop the executed receipt id from the pending set
(`retain`), and append the current block height to `blocks` unless it is
already the last element. -/
def outcome_pt2 (pt0 : PendingTransaction) (receipt_id : Hash)
    (block_height : BlockHeight) : PendingTransaction :=
  let pt1 := { pt0 with
    pending_receipt_ids := pt0.pending_receipt_ids.filter (fun r => r != receipt_id) }
  if pt1.blocks.getLast? = some block_height then pt1
  else { pt1 with blocks := pt1.blocks ++ [block_height] }

/-- One execution outcome of the outcome pass (the body of the
`for outcome in shard.receipt_execution_outcomes` loop). -/
def process_outcome (ctx : ExtractCtx) (watch_list : List WatchListEntry)
    (skip_missing_receipts : Bool) (block_height : BlockHeight)
    (acc : TxCache × List PendingTransaction)
    (outcome : IndexerExecutionOutcomeWithReceipt) :
    Except String (TxCache × List PendingTransaction) :=
  let cache := acc.1
  let complete_transactions := acc.2
  let receipt := outcome.receipt
  let execution_outcome := trim_execution_outcome outcome.execution_outcome
  let receipt_id := receipt.receipt_id
  match (cache.get_and_remove_receipt_to_tx receipt_id).1 with
  | none =>
    if skip_missing_receipts then .ok (cache, complete_transactions)
    else .error "Missing tx_hash for receipt_id"
  | some tx_hash =>
    let cache := (cache.get_and_remove_receipt_to_tx receipt_id).2
    match (cache.get_and_remove_transaction tx_hash).1 with
    | none => .error "Missing transaction for receipt"
    | some pt0 =>
      let cache := (cache.get_and_remove_transaction tx_hash).2
      resolve_outcome_data ctx watch_list skip_missing_receipts complete_transactions
        execution_outcome receipt cache (outcome_pt2 pt0 receipt_id block_height)

def outcome_pass (ctx : ExtractCtx) (watch_list : List WatchListEntry)
    (skip_missing_receipts : Bool) (block_height : BlockHeight)
    (acc : TxCache × List PendingTransaction) (shards : List IndexerShard) :
    Except String (TxCache × List PendingTransaction) :=
  foldE
    (fun acc shard =>
      foldE (process_outcome ctx watch_list skip_missing_receipts block_height)
        acc shard.receipt_execution_outcomes)
    acc shards

/-! ## The row projector and committer -/

structure ProcState where
  cache : TxCache
  rows : TxRows
  missing_block_headers : List (BlockHeight × Hash × AccountId × BlockHeight)
  committed : TxRows
deriving DecidableEq, Repr

/-- One height of the `for block_height in transaction.blocks` loop of
`process_transaction`: a cached header yields a `BlockTxRow` and is
re-inserted; a missing header appends a record to the side log
`missing_block_headers.txt`. -/
def block_tx_step (tx_hash : Hash) (signer_id : AccountId) (t : PendingTransaction)
    (st : ProcState) (block_height : BlockHeight) : Except String ProcState :=
  match (st.cache.get_and_remove_block_header block_height).1 with
  | some block_header =>
    let st' := { st with
      cache := (st.cache.get_and_remove_block_header block_height).2
      rows := { st.rows with block_txs := st.rows.block_txs ++
        [({ block_height := block_height
            block_hash := block_header.hash
            block_timestamp := block_header.timestamp
            transaction_hash := tx_hash
            signer_id := signer_id
            tx_block_height := t.tx_block_height } : BlockTxRow)] } }
    match st'.cache.insert_block_header block_header with
    | .ok cache' => .ok { st' with cache := cache' }
    | .error e => .error e
  | none =>
    .ok { st with missing_block_headers := st.missing_block_headers ++
          [(block_height, tx_hash, signer_id, t.tx_block_height)] }

/-- `TransactionsData::process_transaction` (the Row Projector): block rows,
receipt rows, account rows, then the single transaction row. -/
def process_transaction (ctx : ExtractCtx) (st : ProcState)
    (transaction : PendingTransaction) : Except String ProcState :=
  let tx_hash := transaction.transaction_hash
  match transaction.blocks.getLast? with
  | none => .error "transaction.blocks is empty"
  | some last_block_height =>
    let signer_id := transaction.transaction.transaction.signer_id
    match foldE (block_tx_step tx_hash signer_id transaction) st transaction.blocks with
    | .error e => .error e
    | .ok st1 =>
      let receipt_rows : List ReceiptTxRow :=
        transaction.transaction.receipts.map (fun r =>
          { receipt_id := r.receipt.receipt_id
            transaction_hash := tx_hash
            signer_id := signer_id
            tx_block_height := transaction.tx_block_height
            tx_block_timestamp := transaction.tx_block_timestamp }) ++
        transaction.transaction.data_receipts.map (fun d =>
          { receipt_id := d.receipt_id
            transaction_hash := tx_hash
            signer_id := signer_id
            tx_block_height := transaction.tx_block_height
            tx_block_timestamp := transaction.tx_block_timestamp })
      let st2 := { st1 with rows :=
        { st1.rows with receipt_txs := st1.rows.receipt_txs ++ receipt_rows } }
      let accounts := get_accounts_from_transaction ctx transaction
      let account_rows : List AccountTxRow :=
        accounts.map (fun account_id =>
          { account_id := account_id
            transaction_hash := tx_hash
            signer_id := signer_id
            tx_block_height := transaction.tx_block_height
            tx_block_timestamp := transaction.tx_block_timestamp })
      let st3 := { st2 with rows :=
        { st2.rows with account_txs := st2.rows.account_txs ++ account_rows } }
      let tx_row : TransactionRow :=
        { transaction_hash := tx_hash
          signer_id := signer_id
          tx_block_height := transaction.tx_block_height
          tx_block_hash := transaction.tx_block_hash
          tx_block_timestamp := transaction.tx_block_timestamp
          transaction := transaction.transaction
          last_block_height := last_block_height }
      .ok { st3 with rows :=
        { st3.rows with transactions := st3.rows.transactions ++ [tx_row] } }

structure Params where
  commit_every_block : Bool
  min_batch : Nat
deriving DecidableEq, Repr

/-- `TransactionsData::commit`: swap the buffers with fresh empties and hand
the rows to the sink.  A successful sink insert is modelled as appending to
the `committed` ledger; the sink's retry loop is modelled separately by
`insert_rows_with_retry`. -/
def commitRows (st : ProcState) : ProcState :=
  { st with rows := emptyTxRows, committed := appendTxRows st.committed st.rows }

/-- `TransactionsData::maybe_commit`. -/
def maybe_commit (pr : Params) (st : ProcState) (block_height : BlockHeight) : ProcState :=
  let is_round_block := block_height % SAVE_STEP = 0
  if pr.min_batch ≤ st.rows.transactions.length ∨ is_round_block ∨ pr.commit_every_block = true
  then commitRows st
  else st

/-- `TransactionsData::process_block`. -/
def process_block (ctx : ExtractCtx) (pr : Params) (watch_list : List WatchListEntry)
    (st : ProcState) (block : BlockWithTxHashes) (last_db_block_height : BlockHeight) :
    Except String ProcState :=
  let block_height := block.block.header.height
  let skip_missing_receipts : Bool := decide (block_height ≤ last_db_block_height)
  match st.cache.insert_block_header block.block.header with
  | .error e => .error e
  | .ok cache0 =>
    match chunk_pass block.block.header cache0 block.shards with
    | .error e => .error e
    | .ok cache1 =>
      match outcome_pass ctx watch_list skip_missing_receipts block_height
          (cache1, []) block.shards with
      | .error e => .error e
      | .ok (cache2, complete_transactions) =>
        let cache3 := cache2.trim_headers
        let cache4 := { cache3 with last_block_height := block_height }
        let st1 := { st with cache := cache4 }
        match (if last_db_block_height < block_height then
                foldE (process_transaction ctx) st1 complete_transactions
              else .ok st1) with
        | .error e => .error e
        | .ok st2 => .ok (maybe_commit pr st2 block_height)

/-- The processing loop of `listen_blocks_for_transactions`: blocks are
consumed strictly in feed order with a fixed `last_db_block_height`. -/
def process_blocks (ctx : ExtractCtx) (pr : Params) (watch_list : List WatchListEntry)
    (last_db_block_height : BlockHeight) (st : ProcState)
    (blocks : List BlockWithTxHashes) : Except String ProcState :=
  foldE (fun st b => process_block ctx pr watch_list st b last_db_block_height) st blocks

/-! ## The working-set store and startup (`TxCache::new`,
`TransactionsData::new`) -/

/-- The embedded sled store, restricted to its five typed reserved keys
(`last_block_height`, `block_headers`, `receipt_to_tx`, `data_receipts`,
`transactions`); `none` means the key is absent. -/
structure SledDb where
  last_block_height : Option BlockHeight
  block_headers : Option (List (BlockHeight × BlockHeaderView))
  receipt_to_tx : Option (List (Hash × Hash))
  data_receipts : Option (List (Hash × ReceiptView))
  transactions : Option (List (Hash × PendingTransaction))
deriving DecidableEq, Repr

def emptySledDb : SledDb := ⟨none, none, none, none, none⟩

/-- `TxCache::new(sled)`: each index and `last_block_height` is loaded
verbatim from the store, `unwrap_or_default` on an absent key. -/
def TxCache.new (sled_db : SledDb) : TxCache :=
  { block_headers := sled_db.block_headers.getD []
    receipt_to_tx := sled_db.receipt_to_tx.getD []
    data_receipts := sled_db.data_receipts.getD []
    transactions := sled_db.transactions.getD []
    last_block_height := sled_db.last_block_height.getD 0 }

/-- `TransactionsData::new`, directory handling: the code removes the
directory at `SLED_DB_PATH` whenever it exists (`remove_dir_all`), then
recreates it (`create_dir_all`) and opens a sled store in it — so the
opened store is empty no matter what was on disk (`existing`), and
`TxCache::new` is applied to that empty store. -/
def transactions_data_new (_existing : Option SledDb) : SledDb × TxCache :=
  let sled_db := emptySledDb
  (sled_db, TxCache.new sled_db)

/-- Modelled from the spec: the spec's §4.1 startup rule for the
working-set store, which is not what the code under `src/` does.  It keeps
a clean-start flag: "On startup the store's directory is wiped and
recreated iff a clean-start flag is set; otherwise contents are loaded
verbatim." -/
def spec_startup_store (clean_start : Bool) (existing : Option SledDb) : SledDb :=
  if clean_start then emptySledDb else existing.getD emptySledDb

def initProcState : ProcState :=
  { cache := (transactions_data_new none).2
    rows := emptyTxRows
    missing_block_headers := []
    committed := emptyTxRows }

/-! ## The batch committer's retry loop (`PostgresDB::insert_rows_with_retry`)

The sink's behaviour is abstracted as a function from the attempt counter
`i` to the result of that attempt: success, an error recognised as a
duplicate-key ("unique constraint") violation, or any other error.  The
loop itself — `delay` starting at 100 ms and doubling after every failed
attempt, `max_retries = 10`, duplicate-key treated as success — is embedded
exactly; `sleeps` records the argument of each `tokio::time::sleep` call in
order. -/

inductive SinkAttempt where
  | ok
  | errUnique
  | errOther
deriving DecidableEq, Repr

inductive SinkOutcome where
  | committed
  | failed
deriving DecidableEq, Repr

def MAX_RETRIES : Nat := 10

/-- The retry loop body.  `i` is the attempt counter of the code; `fuel`
encodes the number of further iterations the `i == max_retries - 1` exit
still allows, i.e. `fuel = (MAX_RETRIES - 1) - i` at every call.  Returns
the outcome, the number of attempts made, and the sleep delays in order. -/
def insert_rows_go (attempt : Nat → SinkAttempt) :
    Nat → Nat → Nat → SinkOutcome × Nat × List Nat
  | fuel, i, delay =>
    match attempt i with
    | .ok => (.committed, 1, [])
    | .errUnique => (.committed, 1, [])
    | .errOther =>
      match fuel with
      | 0 => (.failed, 1, [delay])
      | fuel' + 1 =>
        let r := insert_rows_go attempt fuel' (i + 1) (delay * 2)
        (r.1, r.2.1 + 1, delay :: r.2.2)

/-- `PostgresDB::insert_rows_with_retry` over an abstract sink: starts at
attempt `0` with a 100 ms delay. -/
def insert_rows_with_retry (attempt : Nat → SinkAttempt) : SinkOutcome × Nat × List Nat :=
  insert_rows_go attempt (MAX_RETRIES - 1) 0 100

theorem insert_rows_go_attempts_le (attempt : Nat → SinkAttempt) :
    ∀ fuel i delay, (insert_rows_go attempt fuel i delay).2.1 ≤ fuel + 1 := by
  intro fuel
  induction fuel with
  | zero =>
    intro i delay
    rw [insert_rows_go]
    cases attempt i <;> simp
  | succ fuel' ih =>
    intro i delay
    rw [insert_rows_go]
    cases attempt i <;> simp
    exact ih (i + 1) (delay * 2)

theorem insert_rows_go_eq_ok (attempt : Nat → SinkAttempt) (fuel i delay : Nat)
    (h : attempt i = .ok) :
    insert_rows_go attempt fuel i delay = (.committed, 1, []) := by
  cases fuel <;> rw [insert_rows_go, h]

theorem insert_rows_go_eq_unique (attempt : Nat → SinkAttempt) (fuel i delay : Nat)
    (h : attempt i = .errUnique) :
    insert_rows_go attempt fuel i delay = (.committed, 1, []) := by
  cases fuel <;> rw [insert_rows_go, h]

theorem insert_rows_go_eq_other_zero (attempt : Nat → SinkAttempt) (i delay : Nat)
    (h : attempt i = .errOther) :
    insert_rows_go attempt 0 i delay = (.failed, 1, [delay]) := by
  rw [insert_rows_go, h]

theorem insert_rows_go_eq_other_succ (attempt : Nat → SinkAttempt) (fuel i delay : Nat)
    (h : attempt i = .errOther) :
    insert_rows_go attempt (fuel + 1) i delay =
      ((insert_rows_go attempt fuel (i + 1) (delay * 2)).1,
       (insert_rows_go attempt fuel (i + 1) (delay * 2)).2.1 + 1,
       delay :: (insert_rows_go attempt fuel (i + 1) (delay * 2)).2.2) := by
  rw [insert_rows_go, h]

theorem insert_rows_go_sleeps (attempt : Nat → SinkAttempt) :
    ∀ fuel i delay k, k < (insert_rows_go attempt fuel i delay).2.2.length →
      (insert_rows_go attempt fuel i delay).2.2.get? k = some (delay * 2 ^ k) := by
  intro fuel
  induction fuel with
  | zero =>
    intro i delay k hk
    cases h : attempt i
    · rw [insert_rows_go_eq_ok attempt 0 i delay h] at hk
      simp at hk
    · rw [insert_rows_go_eq_unique attempt 0 i delay h] at hk
      simp at hk
    · rw [insert_rows_go_eq_other_zero attempt i delay h] at hk ⊢
      simp at hk
      subst hk
      simp
  | succ fuel' ih =>
    intro i delay k hk
    cases h : attempt i
    · rw [insert_rows_go_eq_ok attempt (fuel' + 1) i delay h] at hk
      simp at hk
    · rw [insert_rows_go_eq_unique attempt (fuel' + 1) i delay h] at hk
      simp at hk
    · rw [insert_rows_go_eq_other_succ attempt fuel' i delay h] at hk ⊢
      match k with
      | 0 => simp
      | k' + 1 =>
        simp only [List.length_cons] at hk
        have hk' : k' < (insert_rows_go attempt fuel' (i + 1) (delay * 2)).2.2.length := by
          omega
        have hrec := ih (i + 1) (delay * 2) k' hk'
        simp only [List.get?_cons_succ]
        rw [hrec]
        congr 1
        ring

theorem insert_rows_go_all_fail (attempt : Nat → SinkAttempt) :
    ∀ fuel i delay, (∀ j, i ≤ j → j ≤ i + fuel → attempt j = .errOther) →
      (insert_rows_go attempt fuel i delay).1 = .failed ∧
      (insert_rows_go attempt fuel i delay).2.1 = fuel + 1 := by
  intro fuel
  induction fuel with
  | zero =>
    intro i delay hall
    rw [insert_rows_go, hall i (Nat.le_refl i) (by omega)]
    exact ⟨rfl, rfl⟩
  | succ fuel' ih =>
    intro i delay hall
    rw [insert_rows_go, hall i (Nat.le_refl i) (by omega)]
    have := ih (i + 1) (delay * 2) (fun j h1 h2 => hall j (by omega) (by omega))
    simp only
    exact ⟨this.1, by rw [this.2]⟩

theorem insert_rows_go_unique_success (attempt : Nat → SinkAttempt) :
    ∀ fuel i delay j, i ≤ j → j ≤ i + fuel → attempt j = .errUnique →
      (∀ m, i ≤ m → m < j → attempt m = .errOther) →
      (insert_rows_go attempt fuel i delay).1 = .committed ∧
      (insert_rows_go attempt fuel i delay).2.1 = j - i + 1 := by
  intro fuel
  induction fuel with
  | zero =>
    intro i delay j h1 h2 hj _
    have : j = i := by omega
    subst this
    rw [insert_rows_go, hj]
    exact ⟨rfl, by simp⟩
  | succ fuel' ih =>
    intro i delay j h1 h2 hj hbefore
    by_cases hij : j = i
    · subst hij
      rw [insert_rows_go, hj]
      exact ⟨rfl, by simp⟩
    · have hstep : attempt i = .errOther := hbefore i (Nat.le_refl i) (by omega)
      rw [insert_rows_go, hstep]
      have := ih (i + 1) (delay * 2) j (by omega) (by omega) hj
        (fun m hm1 hm2 => hbefore m (by omega) hm2)
      simp only
      refine ⟨this.1, ?_⟩
      rw [this.2]
      omega

/-! ## Claim C8: the outcome strip mutates exactly two fields -/

/-- C8.  For every execution outcome ingested, stripping mutates exactly two
fields of the outcome record — the proof list is cleared and the metadata's
gas-profile sub-field is set to absent — and every other field of the
outcome is unchanged. -/
theorem c8_trim_execution_outcome_frame (e : ExecutionOutcomeWithIdView) :
    (trim_execution_outcome e).proof = [] ∧
    (trim_execution_outcome e).outcome.metadata.gas_profile = none ∧
    (trim_execution_outcome e).block_hash = e.block_hash ∧
    (trim_execution_outcome e).id = e.id ∧
    (trim_execution_outcome e).outcome.logs = e.outcome.logs ∧
    (trim_execution_outcome e).outcome.receipt_ids = e.outcome.receipt_ids ∧
    (trim_execution_outcome e).outcome.gas_burnt = e.outcome.gas_burnt ∧
    (trim_execution_outcome e).outcome.tokens_burnt = e.outcome.tokens_burnt ∧
    (trim_execution_outcome e).outcome.executor_id = e.outcome.executor_id ∧
    (trim_execution_outcome e).outcome.status = e.outcome.status ∧
    (trim_execution_outcome e).outcome.metadata.version = e.outcome.metadata.version :=
  ⟨rfl, rfl, rfl, rfl, rfl, rfl, rfl, rfl, rfl, rfl, rfl⟩

/-! ## Claim C3: the committer's retry policy -/

/-- C3.  For every batch insert through `insert_rows_with_retry`: the first
retry delay is 100 ms and doubles on each subsequent attempt (the `k`-th
sleep is `100 * 2 ^ k` ms); at most 10 attempts are made; if the sink
reports a unique-key constraint violation the call returns success; any
other sink error on the final attempt is returned as an error. -/
theorem c3_insert_rows_with_retry (attempt : Nat → SinkAttempt) :
    (insert_rows_with_retry attempt).2.1 ≤ 10 ∧
    (∀ k, k < (insert_rows_with_retry attempt).2.2.length →
      (insert_rows_with_retry attempt).2.2.get? k = some (100 * 2 ^ k)) ∧
    ((∀ i, i < 10 → attempt i = .errOther) →
      (insert_rows_with_retry attempt).1 = .failed ∧
      (insert_rows_with_retry attempt).2.1 = 10) ∧
    (∀ j, j < 10 → attempt j = .errUnique → (∀ m, m < j → attempt m = .errOther) →
      (insert_rows_with_retry attempt).1 = .committed ∧
      (insert_rows_with_retry attempt).2.1 = j + 1) := by
  refine ⟨?_, ?_, ?_, ?_⟩
  · have := insert_rows_go_attempts_le attempt (MAX_RETRIES - 1) 0 100
    simpa [insert_rows_with_retry, MAX_RETRIES] using this
  · intro k hk
    exact insert_rows_go_sleeps attempt (MAX_RETRIES - 1) 0 100 k hk
  · intro hall
    have := insert_rows_go_all_fail attempt (MAX_RETRIES - 1) 0 100
      (fun j h1 h2 => hall j (by simp [MAX_RETRIES] at h2 ⊢; omega))
    simpa [insert_rows_with_retry, MAX_RETRIES] using this
  · intro j hj hju hbefore
    have := insert_rows_go_unique_success attempt (MAX_RETRIES - 1) 0 100 j
      (Nat.zero_le j) (by simp [MAX_RETRIES]; omega) hju
      (fun m hm1 hm2 => hbefore m hm2)
    simpa [insert_rows_with_retry] using this

/-- A sink that reports a unique-key violation on its third attempt. -/
def c3AttemptUnique : Nat → SinkAttempt :=
  fun i => if i < 2 then .errOther else .errUnique

/-- A sink that always fails with a non-duplicate error. -/
def c3AttemptFail : Nat → SinkAttempt := fun _ => .errOther

theorem c3_insert_rows_with_retry_witness :
    ((insert_rows_with_retry c3AttemptUnique).1 = .committed ∧
     (insert_rows_with_retry c3AttemptUnique).2.1 = 3 ∧
     (insert_rows_with_retry c3AttemptUnique).2.2.get? 1 = some (100 * 2 ^ 1)) ∧
    ((insert_rows_with_retry c3AttemptFail).1 = .failed ∧
     (insert_rows_with_retry c3AttemptFail).2.1 = 10) := by
  have hu := c3_insert_rows_with_retry c3AttemptUnique
  have hf := c3_insert_rows_with_retry c3AttemptFail
  have h1 := hu.2.2.2 2 (by decide) (by decide) (by decide)
  have h2 := hf.2.2.1 (by decide)
  exact ⟨⟨h1.1, h1.2, hu.2.1 1 (by decide)⟩, h2⟩

/-! ## Properties of the account extraction -/

theorem hsInsert_mem_of_mem (l : List AccountId) (a b : AccountId) (h : a ∈ l) :
    a ∈ hsInsert l b := by
  unfold hsInsert
  split
  · exact h
  · exact List.mem_append_left _ h

theorem hsInsert_self_mem (l : List AccountId) (b : AccountId) : b ∈ hsInsert l b := by
  unfold hsInsert
  split
  · assumption
  · exact List.mem_append_right _ (by simp)

theorem hsInsert_nodup (l : List AccountId) (b : AccountId) (h : l.Nodup) :
    (hsInsert l b).Nodup := by
  unfold hsInsert
  split
  · exact h
  · next hb => simp [List.nodup_append, h, hb]

/-- A property preserved by every step of a left fold is preserved by the
fold. -/
theorem foldl_preserves {β : Type} (P : List AccountId → Prop)
    (f : List AccountId → β → List AccountId)
    (hf : ∀ acc x, P acc → P (f acc x)) :
    ∀ (l : List β) (acc : List AccountId), P acc → P (l.foldl f acc) := by
  intro l
  induction l with
  | nil => intro acc h; simpa using h
  | cons x t ih => intro acc h; rw [List.foldl_cons]; exact ih _ (hf acc x h)

theorem extract_accounts_preserves (ctx : ExtractCtx) (value : JValue)
    (keys : List String) (P : List AccountId → Prop)
    (hP : ∀ acc b, P acc → P (hsInsert acc b)) :
    ∀ acc, P acc → P (extract_accounts ctx acc value keys) := by
  intro acc h
  unfold extract_accounts
  refine foldl_preserves P _ ?_ keys acc h
  intro acc' arg h'
  split
  · split
    · split
      · exact hP _ _ h'
      · exact h'
    · exact h'
  · exact h'

theorem add_accounts_from_logs_preserves (ctx : ExtractCtx) (logs : List String)
    (P : List AccountId → Prop) (hP : ∀ acc b, P acc → P (hsInsert acc b)) :
    ∀ acc, P acc → P (add_accounts_from_logs ctx acc logs) := by
  intro acc h
  unfold add_accounts_from_logs
  refine foldl_preserves P _ ?_ logs acc h
  intro acc' log h'
  split
  · split
    · exact foldl_preserves P _
        (fun a d ha => extract_accounts_preserves ctx d POTENTIAL_EVENTS_ARGS P hP a ha)
        _ acc' h'
    · exact h'
  · exact h'

theorem add_accounts_from_receipt_preserves (ctx : ExtractCtx) (receipt : ReceiptView)
    (P : List AccountId → Prop) (hP : ∀ acc b, P acc → P (hsInsert acc b)) :
    ∀ acc, P acc → P (add_accounts_from_receipt ctx acc receipt) := by
  intro acc h
  unfold add_accounts_from_receipt
  cases receipt.receipt with
  | data _ => exact hP acc receipt.receiver_id h
  | action ids actions =>
    refine foldl_preserves P _ ?_ actions (hsInsert acc receipt.receiver_id)
      (hP acc receipt.receiver_id h)
    intro acc' action h'
    cases action with
    | other => exact h'
    | functionCall args =>
      dsimp only
      split
      · exact extract_accounts_preserves ctx _ POTENTIAL_ACCOUNT_ARGS P hP acc' h'
      · exact h'

/-- The extracted account set always contains the signer. -/
theorem get_accounts_from_transaction_signer (ctx : ExtractCtx)
    (transaction : PendingTransaction) :
    transaction.transaction.transaction.signer_id ∈
      get_accounts_from_transaction ctx transaction := by
  unfold get_accounts_from_transaction
  refine foldl_preserves (transaction.transaction.transaction.signer_id ∈ ·) _ ?_
    transaction.transaction.receipts _ (hsInsert_self_mem _ _)
  intro acc r h
  exact add_accounts_from_logs_preserves ctx _ _
    (fun acc' b h' => hsInsert_mem_of_mem acc' _ b h')
    _ (add_accounts_from_receipt_preserves ctx _ _
      (fun acc' b h' => hsInsert_mem_of_mem acc' _ b h') acc h)

/-- The extracted account list is duplicate-free: it is a faithful model of
the `HashSet` the code builds, so its length is the set's size. -/
theorem get_accounts_from_transaction_nodup (ctx : ExtractCtx)
    (transaction : PendingTransaction) :
    (get_accounts_from_transaction ctx transaction).Nodup := by
  unfold get_accounts_from_transaction
  refine foldl_preserves List.Nodup _ ?_ transaction.transaction.receipts _
    (hsInsert_nodup [] _ (by simp))
  intro acc r h
  exact add_accounts_from_logs_preserves ctx _ _ hsInsert_nodup _
    (add_accounts_from_receipt_preserves ctx _ _ hsInsert_nodup acc h)

/-! ## Claim C4: the completion filter -/

/-- C4.  The completion filter keeps a transaction if and only if some
account in the extracted account set matches some watch-list entry, where an
entry with `is_regex = false` matches by exact string equality and an entry
with `is_regex = true` matches when its `account_id`, compiled as a regular
expression, matches the candidate; and the extracted set always contains
the signer. -/
theorem c4_watch_list_filter (ctx : ExtractCtx) (watch_list : List WatchListEntry)
    (transaction : PendingTransaction) :
    (some_account_in_watch_list ctx watch_list transaction = true ↔
      ∃ e ∈ watch_list, ∃ a ∈ get_accounts_from_transaction ctx transaction,
        (e.is_regex = true ∧ ctx.regex_match e.account_id a = true) ∨
        (e.is_regex = false ∧ a = e.account_id)) ∧
    transaction.transaction.transaction.signer_id ∈
      get_accounts_from_transaction ctx transaction := by
  refine ⟨?_, get_accounts_from_transaction_signer ctx transaction⟩
  unfold some_account_in_watch_list
  rw [List.any_eq_true]
  constructor
  · rintro ⟨e, he, hany⟩
    rw [List.any_eq_true] at hany
    rcases hany with ⟨a, ha, hmatch⟩
    refine ⟨e, he, a, ha, ?_⟩
    by_cases hr : e.is_regex
    · rw [if_pos hr] at hmatch
      exact Or.inl ⟨hr, hmatch⟩
    · rw [if_neg hr] at hmatch
      exact Or.inr ⟨Bool.eq_false_iff.mpr hr, by simpa using hmatch⟩
  · rintro ⟨e, he, a, ha, hcase⟩
    refine ⟨e, he, ?_⟩
    rw [List.any_eq_true]
    refine ⟨a, ha, ?_⟩
    rcases hcase with ⟨hr, hm⟩ | ⟨hr, hm⟩
    · rw [if_pos hr]; exact hm
    · rw [if_neg (by simp [hr])]; simpa using hm

/-! ## Claim C10: an empty watch list filters out everything -/

theorem some_account_in_watch_list_empty (ctx : ExtractCtx) (t : PendingTransaction) :
    some_account_in_watch_list ctx [] t = false := rfl

theorem finish_outcome_empty_watch_list (ctx : ExtractCtx)
    (comp : List PendingTransaction) (eo : ExecutionOutcomeWithIdView)
    (receipt : ReceiptView) (cacheC : TxCache) (ptC : PendingTransaction)
    (res : TxCache × List PendingTransaction)
    (hrun : finish_outcome ctx [] comp eo receipt cacheC ptC = .ok res) :
    res.2 = comp := by
  unfold finish_outcome at hrun
  dsimp only at hrun
  split at hrun
  · rw [some_account_in_watch_list_empty] at hrun
    simp only [Bool.false_eq_true, if_false] at hrun
    injection hrun with h'
    rw [← h']
  · split at hrun
    · injection hrun with h'; rw [← h']
    · exact Except.noConfusion hrun

theorem resolve_outcome_data_empty_watch_list (ctx : ExtractCtx) (skip : Bool)
    (comp : List PendingTransaction) (eo : ExecutionOutcomeWithIdView)
    (receipt : ReceiptView) (cache : TxCache) (pt2 : PendingTransaction)
    (res : TxCache × List PendingTransaction)
    (hrun : resolve_outcome_data ctx [] skip comp eo receipt cache pt2 = .ok res) :
    res.2 = comp := by
  unfold resolve_outcome_data at hrun
  split at hrun
  · exact Except.noConfusion hrun
  · split at hrun
    · split at hrun
      · injection hrun with h'; rw [← h']
      · exact Except.noConfusion hrun
    · exact finish_outcome_empty_watch_list ctx comp _ _ _ _ res hrun

theorem process_outcome_empty_watch_list (ctx : ExtractCtx) (skip : Bool)
    (h : BlockHeight) (acc : TxCache × List PendingTransaction)
    (o : IndexerExecutionOutcomeWithReceipt) (res : TxCache × List PendingTransaction)
    (hrun : process_outcome ctx [] skip h acc o = .ok res) : res.2 = acc.2 := by
  unfold process_outcome at hrun
  dsimp only at hrun
  split at hrun
  · split at hrun
    · injection hrun with h'; rw [← h']
    · exact Except.noConfusion hrun
  · split at hrun
    · exact Except.noConfusion hrun
    · exact resolve_outcome_data_empty_watch_list ctx skip acc.2 _ _ _ _ res hrun

/-- A property preserved by every successful step of `foldE` is preserved by
a successful fold. -/
theorem foldE_preserves {σ α : Type} (f : σ → α → Except String σ) (P : σ → Prop)
    (hf : ∀ s x s', f s x = .ok s' → P s → P s') :
    ∀ (l : List α) (s s' : σ), foldE f s l = .ok s' → P s → P s' := by
  intro l
  induction l with
  | nil =>
    intro s s' h hp
    rw [foldE] at h
    injection h with h
    rw [← h]
    exact hp
  | cons x t ih =>
    intro s s' h hp
    rw [foldE] at h
    cases hfx : f s x with
    | ok s1 => rw [hfx] at h; exact ih s1 s' h (hf s x s1 hfx hp)
    | error e => rw [hfx] at h; exact Except.noConfusion h

theorem outcome_pass_empty_watch_list (ctx : ExtractCtx) (skip : Bool)
    (h : BlockHeight) (acc : TxCache × List PendingTransaction)
    (shards : List IndexerShard) (res : TxCache × List PendingTransaction)
    (hrun : outcome_pass ctx [] skip h acc shards = .ok res) : res.2 = acc.2 := by
  unfold outcome_pass at hrun
  refine foldE_preserves _ (fun a => a.2 = acc.2) ?_ shards acc res hrun rfl
  intro s shard s' hs hp
  refine Eq.trans ?_ hp
  exact foldE_preserves _ (fun a => a.2 = s.2)
    (fun a o a' ha hpa => Eq.trans (process_outcome_empty_watch_list ctx skip h a o a' ha) hpa)
    shard.receipt_execution_outcomes s s' hs rfl

theorem appendTxRows_emptyTxRows (a : TxRows) : appendTxRows a emptyTxRows = a := by
  cases a
  simp [appendTxRows, emptyTxRows]

theorem maybe_commit_of_empty_rows (pr : Params) (st : ProcState) (h : BlockHeight)
    (hrows : st.rows = emptyTxRows) :
    (maybe_commit pr st h).rows = emptyTxRows ∧
    (maybe_commit pr st h).committed = st.committed := by
  unfold maybe_commit
  dsimp only
  split
  · unfold commitRows
    exact ⟨rfl, by rw [hrows, appendTxRows_emptyTxRows]⟩
  · exact ⟨hrows, rfl⟩

theorem process_block_empty_watch_list (ctx : ExtractCtx) (pr : Params)
    (st : ProcState) (block : BlockWithTxHashes) (ldb : BlockHeight) (st' : ProcState)
    (hrun : process_block ctx pr [] st block ldb = .ok st')
    (hrows : st.rows = emptyTxRows) (hcom : st.committed = emptyTxRows) :
    st'.rows = emptyTxRows ∧ st'.committed = emptyTxRows := by
  unfold process_block at hrun
  dsimp only at hrun
  split at hrun
  · exact Except.noConfusion hrun
  next cache0 hbh =>
    split at hrun
    · exact Except.noConfusion hrun
    next cache1 hcp =>
      split at hrun
      · exact Except.noConfusion hrun
      next cache2 complete_transactions hop =>
        have hco : complete_transactions = [] :=
          outcome_pass_empty_watch_list ctx _ _ (cache1, []) block.shards
            (cache2, complete_transactions) hop
        subst hco
        rw [foldE] at hrun
        rw [ite_self] at hrun
        dsimp only at hrun
        injection hrun with hrun
        rw [← hrun]
        exact (maybe_commit_of_empty_rows pr
          { cache :=
              { block_headers := cache2.trim_headers.block_headers
                receipt_to_tx := cache2.trim_headers.receipt_to_tx
                data_receipts := cache2.trim_headers.data_receipts
                transactions := cache2.trim_headers.transactions
                last_block_height := block.block.header.height }
            rows := st.rows
            missing_block_headers := st.missing_block_headers
            committed := st.committed }
          block.block.header.height hrows).imp id (fun h2 => h2.trans hcom)

/-- C10.  If the watch list is empty — in particular when loading it from
the sink fails, since `listen_blocks_for_transactions` replaces the failure
by an empty list — then the completion filter returns `false` for every
complete transaction, so across any successfully processed block sequence
no transaction is ever emitted and no rows are ever produced. -/
theorem c10_empty_watch_list_no_rows (ctx : ExtractCtx) (pr : Params)
    (ldb : BlockHeight) (blocks : List BlockWithTxHashes) (st' : ProcState)
    (hrun : process_blocks ctx pr [] ldb initProcState blocks = .ok st') :
    (∀ t : PendingTransaction, some_account_in_watch_list ctx [] t = false) ∧
    st'.rows = emptyTxRows ∧ st'.committed = emptyTxRows := by
  refine ⟨fun t => some_account_in_watch_list_empty ctx t, ?_⟩
  unfold process_blocks at hrun
  exact foldE_preserves _
    (fun st => st.rows = emptyTxRows ∧ st.committed = emptyTxRows)
    (fun s b s' h hp => process_block_empty_watch_list ctx pr s b ldb s' h hp.1 hp.2)
    blocks initProcState st' hrun ⟨rfl, rfl⟩

/-- A trivial extraction context for concrete runs: every string is a valid
account id, nothing parses, no regular expression matches. -/
def ctxW : ExtractCtx :=
  { valid_account := fun s => some s
    parse_args := fun _ => none
    parse_event := fun _ => none
    regex_match := fun _ _ => false }

def prW : Params := { commit_every_block := false, min_batch := 10000 }

/-- A one-block input: block 1 submits transaction `5` (signer `"a"`)
whose outcome spawns receipt `2`; no outcomes execute. -/
def blockW : BlockWithTxHashes :=
  { block := { header := { height := 1, hash := 90, timestamp := 7 } }
    shards :=
      [{ chunk := some
           { transactions :=
               [{ transaction := { hash := 5, signer_id := "a" }
                  execution_outcome :=
                    { proof := [3]
                      block_hash := 90
                      id := 40
                      outcome :=
                        { logs := []
                          receipt_ids := [2]
                          gas_burnt := 1
                          tokens_burnt := 1
                          executor_id := "a"
                          status := 0
                          metadata := { version := 1, gas_profile := some [5] } } } }]
             receipts := [] }
         receipt_execution_outcomes := [] }] }

def c10stW : ProcState :=
  (process_blocks ctxW prW [] 0 initProcState [blockW]).toOption.getD initProcState

theorem c10_empty_watch_list_no_rows_witness :
    some_account_in_watch_list ctxW []
      { tx_block_height := 1, tx_block_hash := 90, tx_block_timestamp := 7
        blocks := [1]
        transaction :=
          { transaction := { hash := 5, signer_id := "a" }
            execution_outcome :=
              { proof := [], block_hash := 90, id := 40
                outcome :=
                  { logs := [], receipt_ids := [2], gas_burnt := 1, tokens_burnt := 1
                    executor_id := "a", status := 0
                    metadata := { version := 1, gas_profile := none } } }
            receipts := []
            data_receipts := [] }
        pending_receipt_ids := [2] } = false ∧
    c10stW.rows = emptyTxRows ∧ c10stW.committed = emptyTxRows := by
  have H := c10_empty_watch_list_no_rows ctxW prW 0 [blockW] c10stW (by rfl)
  exact ⟨H.1 _, H.2⟩

/-! ## Claim C5: startup and the working-set store -/

/-- A non-empty persisted store (`last_block_height = 7`). -/
def sledW : SledDb := { emptySledDb with last_block_height := some 7 }

/-- C5 counterexample.  The claim says the store's directory is wiped iff a
clean-start flag is set and that with the flag unset the contents are
loaded verbatim.  The code has no such flag: `TransactionsData::new` removes
the directory whenever it exists, so starting over the non-empty store
`sledW` the engine sees an empty store and `last_block_height = 0`, while
the spec-modelled startup with the flag unset keeps `sledW`. -/
theorem c5_counterexample :
    (transactions_data_new (some sledW)).1 ≠ spec_startup_store false (some sledW) ∧
    (transactions_data_new (some sledW)).2.last_block_height = 0 ∧
    sledW.last_block_height = some 7 := by
  refine ⟨?_, rfl, rfl⟩
  decide

/-- C5 amended.  At startup the store's directory is always wiped and
recreated, regardless of any flag, so the engine always starts from an
empty store; `TxCache::new` itself loads whatever store it is given
verbatim into the four cache indexes and `last_block_height`. -/
theorem c5_amended_startup (existing : Option SledDb) (s : SledDb) :
    (transactions_data_new existing).1 = emptySledDb ∧
    (transactions_data_new existing).2 = TxCache.new emptySledDb ∧
    (TxCache.new s).block_headers = s.block_headers.getD [] ∧
    (TxCache.new s).receipt_to_tx = s.receipt_to_tx.getD [] ∧
    (TxCache.new s).data_receipts = s.data_receipts.getD [] ∧
    (TxCache.new s).transactions = s.transactions.getD [] ∧
    (TxCache.new s).last_block_height = s.last_block_height.getD 0 :=
  ⟨rfl, rfl, rfl, rfl, rfl, rfl, rfl⟩

/-! ## Characterization of the outcome-pass step -/

theorem get_and_remove_receipt_to_tx_some (c : TxCache) (rid tx : Hash)
    (hm : mlookup c.receipt_to_tx rid = some tx) :
    c.get_and_remove_receipt_to_tx rid =
      (some tx, { c with receipt_to_tx := mremove c.receipt_to_tx rid }) := by
  unfold TxCache.get_and_remove_receipt_to_tx
  rw [hm]

theorem get_and_remove_receipt_to_tx_none (c : TxCache) (rid : Hash)
    (hm : mlookup c.receipt_to_tx rid = none) :
    c.get_and_remove_receipt_to_tx rid = (none, c) := by
  unfold TxCache.get_and_remove_receipt_to_tx
  rw [hm]

theorem get_and_remove_transaction_some (c : TxCache) (tx : Hash) (pt : PendingTransaction)
    (ht : mlookup c.transactions tx = some pt) :
    c.get_and_remove_transaction tx =
      (some pt, { c with transactions := mremove c.transactions tx }) := by
  unfold TxCache.get_and_remove_transaction
  rw [ht]

theorem get_and_remove_transaction_none (c : TxCache) (tx : Hash)
    (ht : mlookup c.transactions tx = none) :
    c.get_and_remove_transaction tx = (none, c) := by
  unfold TxCache.get_and_remove_transaction
  rw [ht]

/-- `process_outcome` when the executed receipt has no receipt→tx mapping:
skipped in skip mode, fatal otherwise. -/
theorem process_outcome_eq_unmapped (ctx : ExtractCtx) (wl : List WatchListEntry)
    (skip : Bool) (h : BlockHeight) (cache : TxCache) (comp : List PendingTransaction)
    (o : IndexerExecutionOutcomeWithReceipt)
    (hm : mlookup cache.receipt_to_tx o.receipt.receipt_id = none) :
    process_outcome ctx wl skip h (cache, comp) o =
      if skip then .ok (cache, comp) else .error "Missing tx_hash for receipt_id" := by
  unfold process_outcome
  dsimp only
  rw [get_and_remove_receipt_to_tx_none cache o.receipt.receipt_id hm]

/-- `process_outcome` when the executed receipt maps to a transaction that
is present in the cache: the step reduces to `resolve_outcome_data` on the
cache with the mapping and the transaction removed, applied to the updated
transaction `outcome_pt2 pt0`. -/
theorem process_outcome_eq_found (ctx : ExtractCtx) (wl : List WatchListEntry)
    (skip : Bool) (h : BlockHeight) (cache : TxCache) (comp : List PendingTransaction)
    (o : IndexerExecutionOutcomeWithReceipt) (tx_hash : Hash) (pt0 : PendingTransaction)
    (hm : mlookup cache.receipt_to_tx o.receipt.receipt_id = some tx_hash)
    (ht : mlookup cache.transactions tx_hash = some pt0) :
    process_outcome ctx wl skip h (cache, comp) o =
      resolve_outcome_data ctx wl skip comp (trim_execution_outcome o.execution_outcome)
        o.receipt
        { cache with
          receipt_to_tx := mremove cache.receipt_to_tx o.receipt.receipt_id
          transactions := mremove cache.transactions tx_hash }
        (outcome_pt2 pt0 o.receipt.receipt_id h) := by
  unfold process_outcome
  dsimp only
  rw [get_and_remove_receipt_to_tx_some cache o.receipt.receipt_id tx_hash hm]
  dsimp only
  rw [get_and_remove_transaction_some
    { cache with receipt_to_tx := mremove cache.receipt_to_tx o.receipt.receipt_id }
    tx_hash pt0 ht]

/-- `process_outcome` when the executed receipt maps to a hash that is
absent from the transactions map: the `expect` panic. -/
theorem process_outcome_eq_dangling (ctx : ExtractCtx) (wl : List WatchListEntry)
    (skip : Bool) (h : BlockHeight) (cache : TxCache) (comp : List PendingTransaction)
    (o : IndexerExecutionOutcomeWithReceipt) (tx_hash : Hash)
    (hm : mlookup cache.receipt_to_tx o.receipt.receipt_id = some tx_hash)
    (ht : mlookup cache.transactions tx_hash = none) :
    process_outcome ctx wl skip h (cache, comp) o =
      .error "Missing transaction for receipt" := by
  unfold process_outcome
  dsimp only
  rw [get_and_remove_receipt_to_tx_some cache o.receipt.receipt_id tx_hash hm]
  dsimp only
  rw [get_and_remove_transaction_none
    { cache with receipt_to_tx := mremove cache.receipt_to_tx o.receipt.receipt_id }
    tx_hash ht]

theorem insert_receipt_to_tx_ok (c : TxCache) (r tx : Hash) (c1 : TxCache)
    (h : c.insert_receipt_to_tx r tx = .ok c1) :
    c1 = { c with receipt_to_tx := minsert c.receipt_to_tx r tx } ∧
    (∀ t, mlookup c.receipt_to_tx r = some t → t = tx) := by
  unfold TxCache.insert_receipt_to_tx at h
  split at h
  next old hold =>
    split at h
    next heq =>
      injection h with h
      exact ⟨h.symm, fun t ht => by rw [hold] at ht; injection ht with ht; rw [← ht]; exact heq⟩
    next hne => exact Except.noConfusion h
  next hnone =>
    injection h with h
    exact ⟨h.symm, fun t ht => by rw [hnone] at ht; exact Option.noConfusion ht⟩

theorem insert_data_receipt_ok (c : TxCache) (d : Hash) (r : ReceiptView) (c1 : TxCache)
    (h : c.insert_data_receipt d r = .ok c1) :
    c1 = { c with data_receipts := minsert c.data_receipts d r } := by
  unfold TxCache.insert_data_receipt at h
  split at h
  next old hold =>
    split at h
    next heq => injection h with h; exact h.symm
    next hne => exact Except.noConfusion h
  next hnone =>
    injection h with h
    exact h.symm

theorem insert_block_header_ok (c : TxCache) (bh : BlockHeaderView) (c1 : TxCache)
    (h : c.insert_block_header bh = .ok c1) :
    c1 = { c with block_headers := btInsert c.block_headers bh.height bh } := by
  unfold TxCache.insert_block_header at h
  split at h
  next old hold =>
    split at h
    next heq => injection h with h; exact h.symm
    next hne => exact Except.noConfusion h
  next hnone =>
    injection h with h
    exact h.symm

theorem fold_insert_receipt_to_tx (tx : Hash) :
    ∀ (ids : List Hash) (c c' : TxCache),
      foldE (fun c r => c.insert_receipt_to_tx r tx) c ids = .ok c' →
      (∀ x, mlookup c'.receipt_to_tx x =
        if x ∈ ids then some tx else mlookup c.receipt_to_tx x) ∧
      (∀ x t, x ∈ ids → mlookup c.receipt_to_tx x = some t → t = tx) ∧
      c'.block_headers = c.block_headers ∧
      c'.data_receipts = c.data_receipts ∧
      c'.transactions = c.transactions ∧
      c'.last_block_height = c.last_block_height := by
  intro ids
  induction ids with
  | nil =>
    intro c c' h
    rw [foldE] at h
    injection h with h
    subst h
    exact ⟨fun x => by simp, fun x t hx => absurd hx (List.not_mem_nil x),
      rfl, rfl, rfl, rfl⟩
  | cons r rest ih =>
    intro c c' h
    rw [foldE] at h
    cases hstep : c.insert_receipt_to_tx r tx with
    | error e => rw [hstep] at h; exact Except.noConfusion h
    | ok c1 =>
      rw [hstep] at h
      rcases insert_receipt_to_tx_ok c r tx c1 hstep with ⟨hc1, hcompat⟩
      subst hc1
      rcases ih _ c' h with ⟨hlook, hcomp, hbh, hdr, htx, hlast⟩
      refine ⟨?_, ?_, hbh, hdr, htx, hlast⟩
      · intro x
        rw [hlook x]
        by_cases hx1 : x ∈ rest
        · rw [if_pos hx1, if_pos (List.mem_cons_of_mem _ hx1)]
        · rw [if_neg hx1]
          dsimp only
          rw [mlookup_minsert]
          by_cases hx2 : x = r
          · rw [if_pos hx2, if_pos (by rw [hx2]; exact List.mem_cons_self r rest)]
          · rw [if_neg hx2, if_neg (by
              intro hmem
              rcases List.mem_cons.mp hmem with h' | h'
              · exact hx2 h'
              · exact hx1 h')]
      · intro x t hx ht
        rcases List.mem_cons.mp hx with h' | h'
        · subst h'
          exact hcompat t ht
        · by_cases hx2 : x = r
          · subst hx2
            exact hcompat t ht
          · refine hcomp x t h' ?_
            dsimp only
            rw [mlookup_minsert, if_neg hx2]
            exact ht

/-- `TxCache.insert_transaction`, characterized: on success the receipt→tx
index maps every id of `ids` to the transaction's hash (success requires
any pre-existing binding of such an id to already carry that hash), all
other bindings are untouched, and the transaction is stored under its
hash. -/
theorem insert_transaction_ok (c : TxCache) (pt : PendingTransaction) (ids : List Hash)
    (c' : TxCache) (h : c.insert_transaction pt ids = .ok c') :
    (∀ x, mlookup c'.receipt_to_tx x =
      if x ∈ ids then some pt.transaction_hash else mlookup c.receipt_to_tx x) ∧
    (∀ x t, x ∈ ids → mlookup c.receipt_to_tx x = some t → t = pt.transaction_hash) ∧
    (∀ x, mlookup c'.transactions x =
      if x = pt.transaction_hash then some pt else mlookup c.transactions x) ∧
    c'.block_headers = c.block_headers ∧
    c'.data_receipts = c.data_receipts ∧
    c'.last_block_height = c.last_block_height := by
  unfold TxCache.insert_transaction at h
  dsimp only at h
  split at h
  next c1 hfold =>
    injection h with h
    subst h
    rcases fold_insert_receipt_to_tx pt.transaction_hash ids c c1 hfold with
      ⟨hlook, hcomp, hbh, hdr, htx, hlast⟩
    refine ⟨hlook, hcomp, ?_, hbh, hdr, hlast⟩
    intro x
    dsimp only
    rw [mlookup_minsert, htx]
  next e hfold => exact Except.noConfusion h

/-- Fields untouched by the data-receipt fetch loop: it only consumes
entries of `data_receipts` and appends to the transaction's attached
`data_receipts` list. -/
def FetchSame (c c' : TxCache) (pt pt' : PendingTransaction) : Prop :=
  c'.block_headers = c.block_headers ∧
  c'.receipt_to_tx = c.receipt_to_tx ∧
  c'.transactions = c.transactions ∧
  c'.last_block_height = c.last_block_height ∧
  pt'.pending_receipt_ids = pt.pending_receipt_ids ∧
  pt'.blocks = pt.blocks ∧
  pt'.transaction.transaction = pt.transaction.transaction ∧
  pt'.transaction.receipts = pt.transaction.receipts ∧
  pt'.tx_block_height = pt.tx_block_height ∧
  pt'.tx_block_timestamp = pt.tx_block_timestamp ∧
  pt'.tx_block_hash = pt.tx_block_hash

theorem fetch_input_data_same :
    ∀ (ids : List Hash) (c : TxCache) (pt : PendingTransaction),
      (∀ cC ptC, fetch_input_data c pt ids = .complete cC ptC → FetchSame c cC pt ptC) ∧
      (∀ cM ptM, fetch_input_data c pt ids = .missing cM ptM → FetchSame c cM pt ptM) := by
  intro ids
  induction ids with
  | nil =>
    intro c pt
    constructor
    · intro cC ptC h
      rw [fetch_input_data] at h
      injection h with h1 h2
      subst h1; subst h2
      exact ⟨rfl, rfl, rfl, rfl, rfl, rfl, rfl, rfl, rfl, rfl, rfl⟩
    · intro cM ptM h
      rw [fetch_input_data] at h
      exact FetchData.noConfusion h
  | cons d rest ih =>
    intro c pt
    constructor
    · intro cC ptC h
      rw [fetch_input_data] at h
      cases hl : mlookup c.data_receipts d with
      | none => rw [hl] at h; exact FetchData.noConfusion h
      | some dr =>
        rw [hl] at h
        rcases (ih _ _).1 cC ptC h with
          ⟨h1, h2, h3, h4, h5, h6, h7, h8, h9, h10, h11⟩
        exact ⟨h1, h2, h3, h4, h5, h6, h7, h8, h9, h10, h11⟩
    · intro cM ptM h
      rw [fetch_input_data] at h
      cases hl : mlookup c.data_receipts d with
      | none =>
        rw [hl] at h
        injection h with h1 h2
        subst h1; subst h2
        exact ⟨rfl, rfl, rfl, rfl, rfl, rfl, rfl, rfl, rfl, rfl, rfl⟩
      | some dr =>
        rw [hl] at h
        rcases (ih _ _).2 cM ptM h with
          ⟨h1, h2, h3, h4, h5, h6, h7, h8, h9, h10, h11⟩
        exact ⟨h1, h2, h3, h4, h5, h6, h7, h8, h9, h10, h11⟩

/-- Success cases of `resolve_outcome_data`: either an input data receipt
was missing in skip mode and the transaction was abandoned with its pending
receipt→tx entries purged, or every input data receipt was found and
`finish_outcome` ran. -/
theorem resolve_outcome_data_cases (ctx : ExtractCtx) (wl : List WatchListEntry)
    (skip : Bool) (comp : List PendingTransaction) (eo : ExecutionOutcomeWithIdView)
    (receipt : ReceiptView) (cache : TxCache) (pt2 : PendingTransaction)
    (res : TxCache × List PendingTransaction)
    (hrun : resolve_outcome_data ctx wl skip comp eo receipt cache pt2 = .ok res) :
    (∃ input_data_ids actions cM ptM,
      receipt.receipt = .action input_data_ids actions ∧
      fetch_input_data cache pt2 input_data_ids = .missing cM ptM ∧
      skip = true ∧
      res = ({ cM with receipt_to_tx := purge cM.receipt_to_tx ptM.pending_receipt_ids },
        comp)) ∨
    (∃ input_data_ids actions cC ptC,
      receipt.receipt = .action input_data_ids actions ∧
      fetch_input_data cache pt2 input_data_ids = .complete cC ptC ∧
      finish_outcome ctx wl comp eo receipt cC ptC = .ok res) := by
  unfold resolve_outcome_data at hrun
  split at hrun
  · exact Except.noConfusion hrun
  next input_data_ids actions hr =>
    split at hrun
    next cM ptM hf =>
      split at hrun
      next hskip =>
        injection hrun with hrun
        exact Or.inl ⟨input_data_ids, actions, cM, ptM, hr, hf, by simpa using hskip,
          hrun.symm⟩
      next hskip => exact Except.noConfusion hrun
    next cC ptC hf =>
      exact Or.inr ⟨input_data_ids, actions, cC, ptC, hr, hf, hrun⟩

/-- Success cases of `finish_outcome`: the transaction either completed
(and was kept or dropped by the filter) or was re-inserted with its newly
spawned receipt ids registered. -/
theorem finish_outcome_cases (ctx : ExtractCtx) (wl : List WatchListEntry)
    (comp : List PendingTransaction) (eo : ExecutionOutcomeWithIdView)
    (receipt : ReceiptView) (cC : TxCache) (ptC : PendingTransaction)
    (res : TxCache × List PendingTransaction)
    (hrun : finish_outcome ctx wl comp eo receipt cC ptC = .ok res) :
    ((finish_ptE eo receipt ptC).pending_receipt_ids = [] ∧
      (res = (cC, comp ++ [finish_ptE eo receipt ptC]) ∨ res = (cC, comp))) ∨
    ((finish_ptE eo receipt ptC).pending_receipt_ids ≠ [] ∧
      ∃ c', cC.insert_transaction (finish_ptE eo receipt ptC) eo.outcome.receipt_ids = .ok c' ∧
        res = (c', comp)) := by
  unfold finish_outcome at hrun
  dsimp only at hrun
  split at hrun
  next hemp =>
    split at hrun
    · injection hrun with hrun
      exact Or.inl ⟨hemp, Or.inl hrun.symm⟩
    · injection hrun with hrun
      exact Or.inl ⟨hemp, Or.inr hrun.symm⟩
  next hne =>
    split at hrun
    next c' hins =>
      injection hrun with hrun
      exact Or.inr ⟨hne, c', hins, hrun.symm⟩
    next e hins => exact Except.noConfusion hrun

/-! ## Claim C2: skip-mode versus fatal handling in the outcome pass -/

/-- C2.  During the outcome pass of `process_block`, with skip mode
(`block_height ≤ last_committed_height`) as the boolean `skip`: a missing
receipt→tx mapping is skipped (warned) in skip mode and fatal otherwise;
a missing input data receipt in skip mode abandons the affected transaction
— it is removed from the cache and its remaining pending receipt→tx entries
are purged — and is fatal out of skip mode. -/
theorem c2_skip_mode_error_handling (ctx : ExtractCtx) (wl : List WatchListEntry)
    (h : BlockHeight) (cache : TxCache) (comp : List PendingTransaction)
    (o : IndexerExecutionOutcomeWithReceipt) :
    (mlookup cache.receipt_to_tx o.receipt.receipt_id = none →
      process_outcome ctx wl true h (cache, comp) o = .ok (cache, comp) ∧
      process_outcome ctx wl false h (cache, comp) o =
        .error "Missing tx_hash for receipt_id") ∧
    (∀ tx_hash pt0 input_data_ids actions cM ptM,
      mlookup cache.receipt_to_tx o.receipt.receipt_id = some tx_hash →
      mlookup cache.transactions tx_hash = some pt0 →
      o.receipt.receipt = .action input_data_ids actions →
      fetch_input_data
        { cache with
          receipt_to_tx := mremove cache.receipt_to_tx o.receipt.receipt_id
          transactions := mremove cache.transactions tx_hash }
        (outcome_pt2 pt0 o.receipt.receipt_id h) input_data_ids = .missing cM ptM →
      (∃ c', process_outcome ctx wl true h (cache, comp) o = .ok (c', comp) ∧
        mlookup c'.transactions tx_hash = none ∧
        (∀ r, r ∈ ptM.pending_receipt_ids → mlookup c'.receipt_to_tx r = none)) ∧
      process_outcome ctx wl false h (cache, comp) o =
        .error "Missing data receipt for data_id") := by
  constructor
  · intro hm
    constructor
    · rw [process_outcome_eq_unmapped ctx wl true h cache comp o hm]
      rfl
    · rw [process_outcome_eq_unmapped ctx wl false h cache comp o hm]
      rfl
  · intro tx_hash pt0 input_data_ids actions cM ptM hm ht hr hf
    have hsame := (fetch_input_data_same input_data_ids _ _).2 cM ptM hf
    constructor
    · refine ⟨{ cM with receipt_to_tx := purge cM.receipt_to_tx ptM.pending_receipt_ids },
        ?_, ?_, ?_⟩
      · rw [process_outcome_eq_found ctx wl true h cache comp o tx_hash pt0 hm ht]
        unfold resolve_outcome_data
        rw [hr]
        dsimp only
        rw [hf]
        rfl
      · show mlookup cM.transactions tx_hash = none
        rw [hsame.2.2.1]
        dsimp only
        rw [mlookup_mremove, if_pos rfl]
      · intro r hrm
        show mlookup (purge cM.receipt_to_tx ptM.pending_receipt_ids) r = none
        rw [mlookup_purge, if_pos hrm]
    · rw [process_outcome_eq_found ctx wl false h cache comp o tx_hash pt0 hm ht]
      unfold resolve_outcome_data
      rw [hr]
      dsimp only
      rw [hf]
      rfl

/-- A pending transaction with hash `5`, pending receipts `11, 12`. -/
def ptBW : PendingTransaction :=
  { tx_block_height := 1, tx_block_hash := 90, tx_block_timestamp := 7
    blocks := [1]
    transaction :=
      { transaction := { hash := 5, signer_id := "a" }
        execution_outcome :=
          { proof := [], block_hash := 90, id := 40
            outcome :=
              { logs := [], receipt_ids := [11, 12], gas_burnt := 1, tokens_burnt := 1
                executor_id := "a", status := 0
                metadata := { version := 1, gas_profile := none } } }
        receipts := []
        data_receipts := [] }
    pending_receipt_ids := [11, 12] }

/-- A cache with no receipt→tx mapping at all. -/
def cacheAW : TxCache :=
  { block_headers := [], receipt_to_tx := [], data_receipts := [], transactions := []
    last_block_height := 0 }

/-- A cache owning `ptBW`: receipt `11` maps to hash `5`. -/
def cacheBW : TxCache :=
  { block_headers := [], receipt_to_tx := [(11, 5)], data_receipts := []
    transactions := [(5, ptBW)], last_block_height := 0 }

/-- The execution outcome of receipt `11`, an action receipt demanding the
(absent) input data receipt `77`. -/
def oBW : IndexerExecutionOutcomeWithReceipt :=
  { execution_outcome :=
      { proof := [], block_hash := 91, id := 11
        outcome :=
          { logs := [], receipt_ids := [], gas_burnt := 1, tokens_burnt := 1
            executor_id := "b", status := 0
            metadata := { version := 1, gas_profile := none } } }
    receipt :=
      { predecessor_id := "a", receiver_id := "b", receipt_id := 11
        receipt := .action [77] [] } }

def cMW : TxCache :=
  { block_headers := [], receipt_to_tx := [], data_receipts := [], transactions := []
    last_block_height := 0 }

def ptMW : PendingTransaction :=
  { ptBW with blocks := [1, 2], pending_receipt_ids := [12] }

def c2resW : TxCache :=
  ((process_outcome ctxW [] true 2 (cacheBW, []) oBW).toOption.map Prod.fst).getD cacheBW

theorem c2_skip_mode_error_handling_witness :
    (process_outcome ctxW [] true 2 (cacheAW, []) oBW = .ok (cacheAW, []) ∧
     process_outcome ctxW [] false 2 (cacheAW, []) oBW =
       .error "Missing tx_hash for receipt_id") ∧
    (process_outcome ctxW [] true 2 (cacheBW, []) oBW = .ok (c2resW, []) ∧
     mlookup c2resW.transactions 5 = none ∧
     mlookup c2resW.receipt_to_tx 12 = none ∧
     process_outcome ctxW [] false 2 (cacheBW, []) oBW =
       .error "Missing data receipt for data_id") := by
  have HA := (c2_skip_mode_error_handling ctxW [] 2 cacheAW [] oBW).1 (by rfl)
  have HB := (c2_skip_mode_error_handling ctxW [] 2 cacheBW [] oBW).2
    5 ptBW [77] [] cMW ptMW (by rfl) (by rfl) (by rfl) (by rfl)
  rcases HB.1 with ⟨c', hrun, htx, hpurge⟩
  have hc' : c2resW = c' := by
    unfold c2resW
    rw [hrun]
    rfl
  refine ⟨HA, ?_, ?_, ?_, HB.2⟩
  · rw [hc']; exact hrun
  · rw [hc']; exact htx
  · rw [hc']
    exact hpurge 12 (by decide)

/-! ## Header bookkeeping lemmas (towards C7) -/

theorem mremove_of_keys_ne {α : Type} (l : List (Nat × α)) (k : Nat)
    (h : ∀ q ∈ l, q.1 ≠ k) : mremove l k = l := by
  induction l with
  | nil => rfl
  | cons p t ih =>
    rw [mremove, if_neg (h p (List.mem_cons_self p t))]
    rw [ih (fun q hq => h q (List.mem_cons_of_mem p hq))]

theorem length_mremove_present {α : Type} (l : List (Nat × α)) (k : Nat)
    (hs : SortedKeys l) (v : α) (hl : mlookup l k = some v) :
    (mremove l k).length + 1 = l.length := by
  induction l with
  | nil => exact Option.noConfusion hl
  | cons p t ih =>
    rcases hs with _ | ⟨hp, ht⟩
    rw [mlookup] at hl
    by_cases hk : p.1 = k
    · rw [mremove, if_pos hk]
      rw [mremove_of_keys_ne t k (fun q hq => by have := hp q hq; omega)]
      simp
    · rw [mremove, if_neg hk]
      rw [if_neg hk] at hl
      simp only [List.length_cons]
      rw [← ih ht hl]

theorem length_btInsert_absent {α : Type} (l : List (Nat × α)) (k : Nat) (v : α)
    (hl : mlookup l k = none) : (btInsert l k v).length = l.length + 1 := by
  induction l with
  | nil => rfl
  | cons p t ih =>
    rw [mlookup] at hl
    by_cases h1 : k < p.1
    · rw [btInsert, if_pos h1]; rfl
    · by_cases h2 : k = p.1
      · rw [if_pos (by omega : p.1 = k)] at hl
        exact Option.noConfusion hl
      · rw [if_neg (by omega : ¬ p.1 = k)] at hl
        rw [btInsert, if_neg h1, if_neg h2]
        simp only [List.length_cons]
        rw [ih hl]

theorem process_chunk_transaction_headers (hr : BlockHeaderView) (c : TxCache)
    (t : IndexerTransactionWithOutcome) (c' : TxCache)
    (h : process_chunk_transaction hr c t = .ok c') :
    c'.block_headers = c.block_headers := by
  unfold process_chunk_transaction at h
  exact (insert_transaction_ok c _ _ c' h).2.2.2.1

theorem process_chunk_receipt_headers (c : TxCache) (r : ReceiptView) (c' : TxCache)
    (h : process_chunk_receipt c r = .ok c') : c'.block_headers = c.block_headers := by
  unfold process_chunk_receipt at h
  split at h
  · injection h with h; rw [← h]
  · rw [insert_data_receipt_ok c _ _ c' h]

theorem chunk_pass_headers (hr : BlockHeaderView) (c : TxCache)
    (shards : List IndexerShard) (c' : TxCache)
    (h : chunk_pass hr c shards = .ok c') : c'.block_headers = c.block_headers := by
  unfold chunk_pass at h
  refine foldE_preserves _ (fun x => x.block_headers = c.block_headers) ?_ shards c c' h rfl
  intro s shard s' hs hp
  revert hs
  split
  · intro hs; injection hs with hs; rw [← hs]; exact hp
  next chunk hchunk =>
    intro hs
    revert hs
    split
    next c1 h1 =>
      intro hs
      have e1 : c1.block_headers = s.block_headers :=
        foldE_preserves _ (fun x => x.block_headers = s.block_headers)
          (fun a t a' ha hpa => (process_chunk_transaction_headers hr a t a' ha).trans hpa)
          chunk.transactions s c1 h1 rfl
      have e2 : s'.block_headers = c1.block_headers :=
        foldE_preserves _ (fun x => x.block_headers = c1.block_headers)
          (fun a t a' ha hpa => (process_chunk_receipt_headers a t a' ha).trans hpa)
          chunk.receipts c1 s' hs rfl
      rw [e2, e1, hp]
    next e h1 => intro hs; exact Except.noConfusion hs

theorem process_outcome_headers (ctx : ExtractCtx) (wl : List WatchListEntry)
    (skip : Bool) (h : BlockHeight) (acc : TxCache × List PendingTransaction)
    (o : IndexerExecutionOutcomeWithReceipt) (res : TxCache × List PendingTransaction)
    (hrun : process_outcome ctx wl skip h acc o = .ok res) :
    res.1.block_headers = acc.1.block_headers := by
  obtain ⟨cache, comp⟩ := acc
  cases hm : mlookup cache.receipt_to_tx o.receipt.receipt_id with
  | none =>
    rw [process_outcome_eq_unmapped ctx wl skip h cache comp o hm] at hrun
    revert hrun
    split
    · intro hrun; injection hrun with hrun; rw [← hrun]
    · intro hrun; exact Except.noConfusion hrun
  | some tx_hash =>
    cases ht : mlookup cache.transactions tx_hash with
    | none =>
      rw [process_outcome_eq_dangling ctx wl skip h cache comp o tx_hash hm ht] at hrun
      exact Except.noConfusion hrun
    | some pt0 =>
      rw [process_outcome_eq_found ctx wl skip h cache comp o tx_hash pt0 hm ht] at hrun
      rcases resolve_outcome_data_cases ctx wl skip comp _ _ _ _ res hrun with
        ⟨ids, actions, cM, ptM, hr, hf, hskip, hres⟩ |
        ⟨ids, actions, cC, ptC, hr, hf, hfin⟩
      · have hsame := (fetch_input_data_same ids _ _).2 cM ptM hf
        rw [hres]
        exact hsame.1
      · have hsame := (fetch_input_data_same ids _ _).1 cC ptC hf
        rcases finish_outcome_cases ctx wl comp _ _ cC ptC res hfin with
          ⟨hemp, hres | hres⟩ | ⟨hne, c', hins, hres⟩
        · rw [hres]; exact hsame.1
        · rw [hres]; exact hsame.1
        · rw [hres]
          exact ((insert_transaction_ok cC _ _ c' hins).2.2.2.1).trans hsame.1

theorem outcome_pass_headers (ctx : ExtractCtx) (wl : List WatchListEntry)
    (skip : Bool) (h : BlockHeight) (acc : TxCache × List PendingTransaction)
    (shards : List IndexerShard) (res : TxCache × List PendingTransaction)
    (hrun : outcome_pass ctx wl skip h acc shards = .ok res) :
    res.1.block_headers = acc.1.block_headers := by
  unfold outcome_pass at hrun
  refine foldE_preserves _ (fun a => a.1.block_headers = acc.1.block_headers) ?_
    shards acc res hrun rfl
  intro s shard s' hs hp
  refine Eq.trans ?_ hp
  exact foldE_preserves _ (fun a => a.1.block_headers = s.1.block_headers)
    (fun a o a' ha hpa => (process_outcome_headers ctx wl skip h a o a' ha).trans hpa)
    shard.receipt_execution_outcomes s s' hs rfl

theorem get_and_remove_block_header_some (c : TxCache) (k : BlockHeight)
    (v : BlockHeaderView) (hl : mlookup c.block_headers k = some v) :
    c.get_and_remove_block_header k =
      (some v, { c with block_headers := mremove c.block_headers k }) := by
  unfold TxCache.get_and_remove_block_header
  rw [hl]

theorem get_and_remove_block_header_none (c : TxCache) (k : BlockHeight)
    (hl : mlookup c.block_headers k = none) :
    c.get_and_remove_block_header k = (none, c) := by
  unfold TxCache.get_and_remove_block_header
  rw [hl]

theorem mlookup_mem {α : Type} (l : List (Nat × α)) (k : Nat) (v : α)
    (h : mlookup l k = some v) : (k, v) ∈ l := by
  induction l with
  | nil => exact Option.noConfusion h
  | cons p t ih =>
    rw [mlookup] at h
    by_cases hp : p.1 = k
    · rw [if_pos hp] at h
      injection h with h
      have : p = (k, v) := by
        cases p
        simp only at hp h
        rw [hp, h]
      rw [← this]
      exact List.mem_cons_self p t
    · rw [if_neg hp] at h
      exact List.mem_cons_of_mem p (ih h)

/-- The header index always stores a header under its own height. -/
def HeaderKeys (c : TxCache) : Prop :=
  ∀ q ∈ c.block_headers, q.2.height = q.1

/-- `block_tx_step` keeps the header index bounded and sorted: a hit removes
a header and re-inserts the same header, a miss only writes the side log. -/
theorem block_tx_step_headers (tx_hash : Hash) (signer_id : AccountId)
    (t : PendingTransaction) (st : ProcState) (bh : BlockHeight) (st' : ProcState)
    (hs : SortedKeys st.cache.block_headers) (hk : HeaderKeys st.cache)
    (hstep : block_tx_step tx_hash signer_id t st bh = .ok st') :
    st'.cache.block_headers.length = st.cache.block_headers.length ∧
    SortedKeys st'.cache.block_headers ∧ HeaderKeys st'.cache := by
  unfold block_tx_step at hstep
  revert hstep
  cases hl : mlookup st.cache.block_headers bh with
  | none =>
    rw [get_and_remove_block_header_none st.cache bh hl]
    intro hstep
    injection hstep with hstep
    rw [← hstep]
    exact ⟨rfl, hs, hk⟩
  | some v =>
    rw [get_and_remove_block_header_some st.cache bh v hl]
    dsimp only
    intro hstep
    split at hstep
    next cache1 hins =>
      injection hstep with hstep
      rw [← hstep]
      have hc1 := insert_block_header_ok _ v cache1 hins
      rw [hc1]
      dsimp only
      have hvh : v.height = bh := hk (bh, v) (mlookup_mem _ bh v hl)
      have habs : mlookup (mremove st.cache.block_headers bh) v.height = none := by
        rw [hvh, mlookup_mremove, if_pos rfl]
      refine ⟨?_, ?_, ?_⟩
      · rw [length_btInsert_absent _ v.height v habs]
        rw [← length_mremove_present st.cache.block_headers bh hs v hl]
      · exact sortedKeys_btInsert _ v.height v (sortedKeys_mremove _ bh hs)
      · intro q hq
        rcases mem_btInsert _ v.height v q hq with hq' | hq'
        · rw [hq']
        · exact hk q ((mremove_sublist st.cache.block_headers bh).mem hq')
    next e hins => exact Except.noConfusion hstep

theorem process_transaction_headers (ctx : ExtractCtx) (st : ProcState)
    (t : PendingTransaction) (st' : ProcState)
    (hs : SortedKeys st.cache.block_headers) (hk : HeaderKeys st.cache)
    (hrun : process_transaction ctx st t = .ok st') :
    st'.cache.block_headers.length = st.cache.block_headers.length ∧
    SortedKeys st'.cache.block_headers ∧ HeaderKeys st'.cache := by
  unfold process_transaction at hrun
  split at hrun
  · exact Except.noConfusion hrun
  next last_bh hlast =>
    dsimp only at hrun
    split at hrun
    next e hfold => exact Except.noConfusion hrun
    next st1 hfold =>
      have h1 : st1.cache.block_headers.length = st.cache.block_headers.length ∧
          SortedKeys st1.cache.block_headers ∧ HeaderKeys st1.cache :=
        foldE_preserves _
          (fun s => s.cache.block_headers.length = st.cache.block_headers.length ∧
            SortedKeys s.cache.block_headers ∧ HeaderKeys s.cache)
          (fun s x s' hsx hp =>
            let r := block_tx_step_headers t.transaction_hash
              t.transaction.transaction.signer_id t s x s' hp.2.1 hp.2.2 hsx
            ⟨r.1.trans hp.1, r.2.1, r.2.2⟩)
          t.blocks st st1 hfold ⟨rfl, hs, hk⟩
      injection hrun with hrun
      rw [← hrun]
      exact h1

theorem maybe_commit_cache (pr : Params) (st : ProcState) (h : BlockHeight) :
    (maybe_commit pr st h).cache = st.cache := by
  unfold maybe_commit
  dsimp only
  split
  · rfl
  · rfl

/-! ## Claim C7: the header retention bound -/

/-- C7.  After every successful call to `process_block` the cache's
`block_headers` index holds at most `BLOCK_HEADER_CLEANUP = 2000` entries
(and stays sorted with each header stored under its own height, the
invariants under which the bound propagates); `trim_headers` drops exactly
the oldest entries — on a height-sorted index it removes the prefix of
smallest heights, every evicted height being strictly smaller than every
retained one — while the count exceeds 2000. -/
theorem c7_header_trim (ctx : ExtractCtx) (pr : Params) (wl : List WatchListEntry)
    (st : ProcState) (block : BlockWithTxHashes) (ldb : BlockHeight) (st' : ProcState)
    (hs : SortedKeys st.cache.block_headers) (hk : HeaderKeys st.cache)
    (hrun : process_block ctx pr wl st block ldb = .ok st') :
    st'.cache.block_headers.length ≤ BLOCK_HEADER_CLEANUP ∧
    SortedKeys st'.cache.block_headers ∧ HeaderKeys st'.cache ∧
    (∀ l : List (BlockHeight × BlockHeaderView),
      trimHeadersList l = l.drop (l.length - BLOCK_HEADER_CLEANUP)) ∧
    (∀ l : List (BlockHeight × BlockHeaderView), SortedKeys l →
      ∀ q ∈ l.take (l.length - BLOCK_HEADER_CLEANUP),
        ∀ q' ∈ trimHeadersList l, q.1 < q'.1) := by
  have htrim1 : ∀ l : List (BlockHeight × BlockHeaderView),
      trimHeadersList l = l.drop (l.length - BLOCK_HEADER_CLEANUP) :=
    fun l => trimHeadersList_eq_drop l
  have htrim2 : ∀ l : List (BlockHeight × BlockHeaderView), SortedKeys l →
      ∀ q ∈ l.take (l.length - BLOCK_HEADER_CLEANUP),
        ∀ q' ∈ trimHeadersList l, q.1 < q'.1 :=
    fun l hl => trimHeadersList_evicts_oldest l hl
  unfold process_block at hrun
  dsimp only at hrun
  split at hrun
  · exact Except.noConfusion hrun
  next cache0 hbh =>
    split at hrun
    · exact Except.noConfusion hrun
    next cache1 hcp =>
      split at hrun
      · exact Except.noConfusion hrun
      next cache2 complete_transactions hop =>
        have hc0 := insert_block_header_ok st.cache block.block.header cache0 hbh
        have hc0s : SortedKeys cache0.block_headers := by
          rw [hc0]
          exact sortedKeys_btInsert _ _ _ hs
        have hc0k : HeaderKeys cache0 := by
          rw [hc0]
          intro q hq
          rcases mem_btInsert _ _ _ q hq with hq' | hq'
          · rw [hq']
          · exact hk q hq'
        have hc1e : cache1.block_headers = cache0.block_headers :=
          chunk_pass_headers block.block.header cache0 block.shards cache1 hcp
        have hc2e : cache2.block_headers = cache0.block_headers :=
          (outcome_pass_headers ctx wl _ _ (cache1, []) block.shards
            (cache2, complete_transactions) hop).trans hc1e
        have htl : (cache2.trim_headers.block_headers).length ≤ BLOCK_HEADER_CLEANUP :=
          trimHeadersList_length_le cache2.block_headers
        have hts : SortedKeys cache2.trim_headers.block_headers :=
          trimHeadersList_sorted cache2.block_headers (by rw [hc2e]; exact hc0s)
        have htk : ∀ q ∈ cache2.trim_headers.block_headers, q.2.height = q.1 := by
          intro q hq
          have hm : q ∈ cache2.block_headers := by
            have := hq
            rw [TxCache.trim_headers] at this
            dsimp only at this
            rw [trimHeadersList_eq_drop] at this
            exact (List.drop_sublist _ _).mem this
          rw [hc2e] at hm
          exact hc0k q hm
        revert hrun
        split
        next e hst2 => intro hrun; exact Except.noConfusion hrun
        next st2 hst2 =>
          intro hrun
          injection hrun with hrun
          have hpres : st2.cache.block_headers.length ≤ BLOCK_HEADER_CLEANUP ∧
              SortedKeys st2.cache.block_headers ∧ HeaderKeys st2.cache := by
            revert hst2
            split
            · intro hst2
              exact foldE_preserves _
                (fun s => s.cache.block_headers.length ≤ BLOCK_HEADER_CLEANUP ∧
                  SortedKeys s.cache.block_headers ∧ HeaderKeys s.cache)
                (fun s x s' hsx hp =>
                  let r := process_transaction_headers ctx s x s' hp.2.1 hp.2.2 hsx
                  ⟨le_of_eq_of_le r.1 hp.1, r.2.1, r.2.2⟩)
                complete_transactions _ st2 hst2 ⟨htl, hts, fun q hq => htk q hq⟩
            · intro hst2
              injection hst2 with hst2
              rw [← hst2]
              exact ⟨htl, hts, fun q hq => htk q hq⟩
          rw [← hrun]
          rw [show (maybe_commit pr st2 block.block.header.height).cache = st2.cache from
            maybe_commit_cache pr st2 block.block.header.height]
          exact ⟨hpres.1, hpres.2.1, hpres.2.2, htrim1, htrim2⟩

def c7stW : ProcState :=
  (process_block ctxW prW [] initProcState blockW 0).toOption.getD initProcState

theorem c7_header_trim_witness :
    c7stW.cache.block_headers.length ≤ BLOCK_HEADER_CLEANUP ∧
    trimHeadersList ([] : List (BlockHeight × BlockHeaderView)) = [] := by
  have H := c7_header_trim ctxW prW [] initProcState blockW 0 c7stW
    (by show SortedKeys ([] : List (BlockHeight × BlockHeaderView)); exact List.Pairwise.nil)
    (by intro q hq; exact absurd hq (List.not_mem_nil q))
    (by rfl)
  refine ⟨H.1, ?_⟩
  have := H.2.2.2.1 ([] : List (BlockHeight × BlockHeaderView))
  simpa using this

/-! ## Claim C6: row counts of the Row Projector -/

/-- The `for block_height in transaction.blocks` loop of
`process_transaction`: header lookups are preserved pointwise (each hit is
removed and re-inserted), and one `BlockTxRow` is emitted per height whose
header is cached; nothing else in the row buffers changes. -/
theorem block_tx_fold_rows (tx_hash : Hash) (signer_id : AccountId)
    (t : PendingTransaction) :
    ∀ (bs : List BlockHeight) (st st' : ProcState),
      HeaderKeys st.cache →
      foldE (block_tx_step tx_hash signer_id t) st bs = .ok st' →
      (∀ k, mlookup st'.cache.block_headers k = mlookup st.cache.block_headers k) ∧
      HeaderKeys st'.cache ∧
      st'.rows.block_txs.length = st.rows.block_txs.length +
        bs.countP (fun h => (mlookup st.cache.block_headers h).isSome) ∧
      st'.rows.receipt_txs = st.rows.receipt_txs ∧
      st'.rows.account_txs = st.rows.account_txs ∧
      st'.rows.transactions = st.rows.transactions ∧
      st'.cache.transactions = st.cache.transactions ∧
      st'.cache.receipt_to_tx = st.cache.receipt_to_tx ∧
      st'.committed = st.committed := by
  intro bs
  induction bs with
  | nil =>
    intro st st' hk h
    rw [foldE] at h
    injection h with h
    subst h
    exact ⟨fun k => rfl, hk, by simp, rfl, rfl, rfl, rfl, rfl, rfl⟩
  | cons b rest ih =>
    intro st st' hk h
    rw [foldE] at h
    revert h
    cases hstep : block_tx_step tx_hash signer_id t st b with
    | error e => intro h; exact Except.noConfusion h
    | ok s1 =>
      intro h
      dsimp only at h
      unfold block_tx_step at hstep
      revert hstep
      cases hl : mlookup st.cache.block_headers b with
      | none =>
        rw [get_and_remove_block_header_none st.cache b hl]
        intro hstep
        injection hstep with hstep
        have hc : s1.cache = st.cache := by rw [← hstep]
        have hr : s1.rows = st.rows := by rw [← hstep]
        have hcm : s1.committed = st.committed := by rw [← hstep]
        have hk1 : HeaderKeys s1.cache := by rw [hc]; exact hk
        rcases ih s1 st' hk1 h with ⟨e1, e2, e3, e4, e5, e6, e7, e8, e9⟩
        rw [hc] at e1 e7 e8
        rw [hr] at e3 e4 e5 e6
        rw [hcm] at e9
        rw [hc] at e3
        refine ⟨e1, e2, ?_, e4, e5, e6, e7, e8, e9⟩
        rw [e3, List.countP_cons]
        simp [hl]
      | some v =>
        rw [get_and_remove_block_header_some st.cache b v hl]
        dsimp only
        intro hstep
        split at hstep
        next cache1 hins =>
          injection hstep with hstep
          subst hstep
          have hvh : v.height = b := hk (b, v) (mlookup_mem _ b v hl)
          have hc1 := insert_block_header_ok _ v cache1 hins
          have hlook : ∀ k, mlookup cache1.block_headers k =
              mlookup st.cache.block_headers k := by
            intro k
            rw [hc1]
            dsimp only
            rw [mlookup_btInsert, hvh, mlookup_mremove]
            by_cases hkb : k = b
            · rw [if_pos hkb, hkb, hl]
            · rw [if_neg hkb, if_neg hkb]
          have hk1 : HeaderKeys
              { cache := cache1
                rows := { st.rows with block_txs := st.rows.block_txs ++
                  [({ block_height := b
                      block_hash := v.hash
                      block_timestamp := v.timestamp
                      transaction_hash := tx_hash
                      signer_id := signer_id
                      tx_block_height := t.tx_block_height } : BlockTxRow)] }
                missing_block_headers := st.missing_block_headers
                committed := st.committed : ProcState }.cache := by
            intro q hq
            rw [hc1] at hq
            dsimp only at hq
            rcases mem_btInsert _ v.height v q hq with hq' | hq'
            · rw [hq']
            · exact hk q ((mremove_sublist st.cache.block_headers b).mem hq')
          rcases ih _ st' hk1 h with ⟨e1, e2, e3, e4, e5, e6, e7, e8, e9⟩
          refine ⟨fun k => (e1 k).trans (hlook k), e2, ?_, e4, e5, e6, ?_, ?_, e9⟩
          · rw [e3]
            dsimp only
            rw [List.countP_cons]
            have hcong : rest.countP
                (fun h => (mlookup cache1.block_headers h).isSome) =
                rest.countP (fun h => (mlookup st.cache.block_headers h).isSome) := by
              refine List.countP_congr ?_
              intro a _
              rw [hlook a]
            rw [hcong]
            simp [hl, List.length_append]
            omega
          · rw [e7, hc1]
          · rw [e8, hc1]
        next e hins => exact Except.noConfusion hstep

/-- C6.  For each completed transaction passed to the Row Projector
(`process_transaction`): the number of `BlockTxRow`s emitted equals the
number of heights in `blocks` whose header is still cached — hence is at
most `|blocks|`, with equality when every height still has a cached
header; the number of `ReceiptTxRow`s equals `|receipts| + |data_receipts|`;
exactly one `TransactionRow` is emitted, whose `last_block_height` is the
last element of `blocks`; and the number of `AccountTxRow`s equals the size
of the extracted account set (the extracted list is duplicate-free). -/
theorem c6_row_projection (ctx : ExtractCtx) (st : ProcState) (t : PendingTransaction)
    (st' : ProcState) (hk : HeaderKeys st.cache)
    (hrun : process_transaction ctx st t = .ok st') :
    st'.rows.block_txs.length = st.rows.block_txs.length +
      t.blocks.countP (fun h => (mlookup st.cache.block_headers h).isSome) ∧
    st'.rows.block_txs.length ≤ st.rows.block_txs.length + t.blocks.length ∧
    ((∀ h ∈ t.blocks, (mlookup st.cache.block_headers h).isSome = true) →
      st'.rows.block_txs.length = st.rows.block_txs.length + t.blocks.length) ∧
    st'.rows.receipt_txs.length = st.rows.receipt_txs.length +
      (t.transaction.receipts.length + t.transaction.data_receipts.length) ∧
    (∃ row : TransactionRow, st'.rows.transactions = st.rows.transactions ++ [row] ∧
      t.blocks.getLast? = some row.last_block_height) ∧
    st'.rows.account_txs.length = st.rows.account_txs.length +
      (get_accounts_from_transaction ctx t).length ∧
    (get_accounts_from_transaction ctx t).Nodup := by
  unfold process_transaction at hrun
  revert hrun
  cases hlast : t.blocks.getLast? with
  | none => intro hrun; exact Except.noConfusion hrun
  | some last_bh =>
    dsimp only
    intro hrun
    revert hrun
    cases hfold : foldE (block_tx_step t.transaction_hash
        t.transaction.transaction.signer_id t) st t.blocks with
    | error e => intro hrun; exact Except.noConfusion hrun
    | ok st1 =>
      intro hrun
      injection hrun with hrun
      rcases block_tx_fold_rows t.transaction_hash t.transaction.transaction.signer_id t
        t.blocks st st1 hk hfold with ⟨e1, e2, e3, e4, e5, e6, e7, e8, e9⟩
      have hcount_le : t.blocks.countP
          (fun h => (mlookup st.cache.block_headers h).isSome) ≤ t.blocks.length :=
        List.countP_le_length _
      rw [← hrun]
      dsimp only
      refine ⟨?_, ?_, ?_, ?_, ?_, ?_, get_accounts_from_transaction_nodup ctx t⟩
      · rw [e3]
      · rw [e3]; omega
      · intro hall
        rw [e3]
        have : t.blocks.countP (fun h => (mlookup st.cache.block_headers h).isSome) =
            t.blocks.length := by
          rw [List.countP_eq_length]
          exact hall
        rw [this]
      · rw [e4]
        simp [List.length_append, List.length_map]
      · refine ⟨{ transaction_hash := t.transaction_hash
                  signer_id := t.transaction.transaction.signer_id
                  tx_block_height := t.tx_block_height
                  tx_block_hash := t.tx_block_hash
                  tx_block_timestamp := t.tx_block_timestamp
                  transaction := t.transaction
                  last_block_height := last_bh }, ?_, rfl⟩
        rw [e6]
      · rw [e5]
        simp [List.length_append, List.length_map]

def hdr1W : BlockHeaderView := { height := 1, hash := 90, timestamp := 7 }

/-- A data receipt view used as an attached data receipt. -/
def drW : ReceiptView :=
  { predecessor_id := "a", receiver_id := "c", receipt_id := 33, receipt := .data 77 }

/-- A completed transaction spanning blocks 1 and 2, with one attached
action receipt and one attached data receipt; the header of block 2 is no
longer cached. -/
def c6tW : PendingTransaction :=
  { ptBW with
    blocks := [1, 2]
    transaction := { ptBW.transaction with receipts := [oBW], data_receipts := [drW] }
    pending_receipt_ids := [] }

def c6stW : ProcState :=
  { cache := { block_headers := [(1, hdr1W)], receipt_to_tx := [], data_receipts := []
               transactions := [], last_block_height := 0 }
    rows := emptyTxRows
    missing_block_headers := []
    committed := emptyTxRows }

def c6stW2 : ProcState :=
  (process_transaction ctxW c6stW c6tW).toOption.getD c6stW

theorem c6_row_projection_witness :
    c6stW2.rows.block_txs.length = 1 ∧
    c6stW2.rows.receipt_txs.length = 2 ∧
    c6stW2.rows.transactions.map (fun r => r.last_block_height) = [2] ∧
    c6stW2.rows.account_txs.length = 2 ∧
    (get_accounts_from_transaction ctxW c6tW).Nodup := by
  have H := c6_row_projection ctxW c6stW c6tW c6stW2
    (by intro q hq; rw [List.mem_singleton.mp hq]; rfl) (by rfl)
  rcases H with ⟨h1, h2, h3, h4, ⟨row, hrow, hlast⟩, h6, h7⟩
  refine ⟨?_, ?_, ?_, ?_, h7⟩
  · rw [h1]; decide
  · rw [h4]; decide
  · rw [hrow]
    have : row.last_block_height = 2 := by
      have h12 : ([1, 2] : List BlockHeight).getLast? = some 2 := by decide
      rw [show c6tW.blocks = [1, 2] from rfl] at hlast
      rw [h12] at hlast
      injection hlast with hlast
      rw [hlast]
    rw [show c6stW.rows.transactions = ([] : List TransactionRow) from rfl]
    simp [this]
  · rw [h6]; decide

/-! ## Claim C1: the retained-transaction invariant

`TxInv c H` is the invariant of the claim, relative to an upper bound `H`
on all recorded block heights (during the processing of block `H` the bound
is the current height; between blocks it is `last_block_height`). -/

structure TxInv (c : TxCache) (H : Nat) : Prop where
  tx_key : ∀ h pt, mlookup c.transactions h = some pt → pt.transaction_hash = h
  nonempty : ∀ h pt, mlookup c.transactions h = some pt → pt.pending_receipt_ids ≠ []
  mapped : ∀ h pt, mlookup c.transactions h = some pt →
    ∀ r ∈ pt.pending_receipt_ids, mlookup c.receipt_to_tx r = some h
  chain : ∀ h pt, mlookup c.transactions h = some pt → List.Pairwise (· < ·) pt.blocks
  blocks_le : ∀ h pt, mlookup c.transactions h = some pt → ∀ b ∈ pt.blocks, b ≤ H
  blocks_ne : ∀ h pt, mlookup c.transactions h = some pt → pt.blocks ≠ []

theorem txinv_congr (c c' : TxCache) (H : Nat)
    (htx : c'.transactions = c.transactions)
    (hrt : c'.receipt_to_tx = c.receipt_to_tx) (hinv : TxInv c H) : TxInv c' H := by
  refine ⟨?_, ?_, ?_, ?_, ?_, ?_⟩ <;> rw [htx]
  · exact hinv.tx_key
  · exact hinv.nonempty
  · rw [hrt]; exact hinv.mapped
  · exact hinv.chain
  · exact hinv.blocks_le
  · exact hinv.blocks_ne

theorem txinv_mono (c : TxCache) (H H' : Nat) (hH : H ≤ H') (hinv : TxInv c H) :
    TxInv c H' :=
  ⟨hinv.tx_key, hinv.nonempty, hinv.mapped, hinv.chain,
   fun h pt hpt b hb => le_trans (hinv.blocks_le h pt hpt b hb) hH, hinv.blocks_ne⟩

/-- `insert_transaction` preserves the invariant whenever the inserted
transaction itself satisfies it and each of its pending ids is either being
registered now or already mapped to its hash. -/
theorem insert_transaction_txinv (c : TxCache) (pt : PendingTransaction)
    (ids : List Hash) (c' : TxCache) (H : Nat)
    (hins : c.insert_transaction pt ids = .ok c') (hinv : TxInv c H)
    (hcov : ∀ r ∈ pt.pending_receipt_ids,
      r ∈ ids ∨ mlookup c.receipt_to_tx r = some pt.transaction_hash)
    (hne : pt.pending_receipt_ids ≠ [])
    (hchain : List.Pairwise (· < ·) pt.blocks)
    (hle : ∀ b ∈ pt.blocks, b ≤ H)
    (hbne : pt.blocks ≠ []) : TxInv c' H := by
  rcases insert_transaction_ok c pt ids c' hins with ⟨hrt, hcompat, htx, _, _, _⟩
  refine ⟨?_, ?_, ?_, ?_, ?_, ?_⟩
  · intro h q hq
    rw [htx] at hq
    by_cases hh : h = pt.transaction_hash
    · rw [if_pos hh] at hq
      injection hq with hq
      rw [← hq, hh]
    · rw [if_neg hh] at hq
      exact hinv.tx_key h q hq
  · intro h q hq
    rw [htx] at hq
    by_cases hh : h = pt.transaction_hash
    · rw [if_pos hh] at hq
      injection hq with hq
      rw [← hq]
      exact hne
    · rw [if_neg hh] at hq
      exact hinv.nonempty h q hq
  · intro h q hq r hr
    rw [htx] at hq
    rw [hrt]
    by_cases hh : h = pt.transaction_hash
    · rw [if_pos hh] at hq
      injection hq with hq
      rw [← hq] at hr
      rcases hcov r hr with hrid | hmapped
      · rw [if_pos hrid, hh]
      · by_cases hrid : r ∈ ids
        · rw [if_pos hrid, hh]
        · rw [if_neg hrid, hmapped, hh]
    · rw [if_neg hh] at hq
      have hold := hinv.mapped h q hq r hr
      by_cases hrid : r ∈ ids
      · exact absurd (hcompat r h hrid hold) hh
      · rw [if_neg hrid]
        exact hold
  · intro h q hq
    rw [htx] at hq
    by_cases hh : h = pt.transaction_hash
    · rw [if_pos hh] at hq
      injection hq with hq
      rw [← hq]
      exact hchain
    · rw [if_neg hh] at hq
      exact hinv.chain h q hq
  · intro h q hq
    rw [htx] at hq
    by_cases hh : h = pt.transaction_hash
    · rw [if_pos hh] at hq
      injection hq with hq
      rw [← hq]
      exact hle
    · rw [if_neg hh] at hq
      exact hinv.blocks_le h q hq
  · intro h q hq
    rw [htx] at hq
    by_cases hh : h = pt.transaction_hash
    · rw [if_pos hh] at hq
      injection hq with hq
      rw [← hq]
      exact hbne
    · rw [if_neg hh] at hq
      exact hinv.blocks_ne h q hq

/-- Removing an executed receipt's mapping together with its owning
transaction preserves the invariant for the remaining transactions. -/
theorem txinv_after_remove (cache : TxCache) (H : Nat) (rid tx_hash : Hash)
    (hm : mlookup cache.receipt_to_tx rid = some tx_hash)
    (hinv : TxInv cache H) :
    TxInv { cache with
            receipt_to_tx := mremove cache.receipt_to_tx rid
            transactions := mremove cache.transactions tx_hash } H := by
  have hretained : ∀ h q, mlookup (mremove cache.transactions tx_hash) h = some q →
      h ≠ tx_hash ∧ mlookup cache.transactions h = some q := by
    intro h q hq
    rw [mlookup_mremove] at hq
    by_cases hh : h = tx_hash
    · rw [if_pos hh] at hq; exact Option.noConfusion hq
    · rw [if_neg hh] at hq; exact ⟨hh, hq⟩
  refine ⟨?_, ?_, ?_, ?_, ?_, ?_⟩
  · intro h q hq
    exact hinv.tx_key h q (hretained h q hq).2
  · intro h q hq
    exact hinv.nonempty h q (hretained h q hq).2
  · intro h q hq r hr
    rcases hretained h q hq with ⟨hh, hq'⟩
    have hold := hinv.mapped h q hq' r hr
    show mlookup (mremove cache.receipt_to_tx rid) r = some h
    rw [mlookup_mremove]
    by_cases hrr : r = rid
    · rw [hrr] at hold
      rw [hold] at hm
      injection hm with hm
      exact absurd hm hh
    · rw [if_neg hrr]
      exact hold
  · intro h q hq
    exact hinv.chain h q (hretained h q hq).2
  · intro h q hq
    exact hinv.blocks_le h q (hretained h q hq).2
  · intro h q hq
    exact hinv.blocks_ne h q (hretained h q hq).2

/-- Purging a set of receipt ids that no retained transaction has pending
preserves the invariant. -/
theorem txinv_purge (c : TxCache) (H : Nat) (ids : List Hash) (hinv : TxInv c H)
    (hdisj : ∀ x q, mlookup c.transactions x = some q →
      ∀ r ∈ q.pending_receipt_ids, r ∉ ids) :
    TxInv { c with receipt_to_tx := purge c.receipt_to_tx ids } H := by
  refine ⟨hinv.tx_key, hinv.nonempty, ?_, hinv.chain, hinv.blocks_le, hinv.blocks_ne⟩
  intro h q hq r hr
  show mlookup (purge c.receipt_to_tx ids) r = some h
  rw [mlookup_purge, if_neg (hdisj h q hq r hr)]
  exact hinv.mapped h q hq r hr

theorem pairwise_le_getLast :
    ∀ (l : List Nat), List.Pairwise (· < ·) l → ∀ b ∈ l,
      ∃ v, l.getLast? = some v ∧ b ≤ v := by
  intro l
  induction l with
  | nil => intro _ b hb; exact absurd hb (List.not_mem_nil b)
  | cons a t ih =>
    intro hp b hb
    rcases hp with _ | ⟨ha, ht⟩
    cases t with
    | nil =>
      rcases List.mem_singleton.mp hb with hb
      exact ⟨a, rfl, le_of_eq hb⟩
    | cons a' t' =>
      rcases List.mem_cons.mp hb with hb' | hb'
      · rcases ih ht a' (List.mem_cons_self a' t') with ⟨v, hv, hle⟩
        refine ⟨v, ?_, ?_⟩
        · rw [List.getLast?_cons_cons]
          exact hv
        · subst hb'
          exact le_of_lt (lt_of_lt_of_le (ha a' (List.mem_cons_self a' t')) hle)
      · rcases ih ht b hb' with ⟨v, hv, hle⟩
        refine ⟨v, ?_, hle⟩
        rw [List.getLast?_cons_cons]
        exact hv

/-- The `blocks` facts of the updated transaction `outcome_pt2 pt0`. -/
theorem outcome_pt2_blocks (pt0 : PendingTransaction) (rid : Hash) (bh : BlockHeight)
    (hchain : List.Pairwise (· < ·) pt0.blocks)
    (hle : ∀ b ∈ pt0.blocks, b ≤ bh) (hne : pt0.blocks ≠ []) :
    List.Pairwise (· < ·) (outcome_pt2 pt0 rid bh).blocks ∧
    (∀ b ∈ (outcome_pt2 pt0 rid bh).blocks, b ≤ bh) ∧
    (outcome_pt2 pt0 rid bh).blocks ≠ [] ∧
    (outcome_pt2 pt0 rid bh).pending_receipt_ids =
      pt0.pending_receipt_ids.filter (fun r => r != rid) := by
  unfold outcome_pt2
  dsimp only
  split
  · exact ⟨hchain, hle, hne, rfl⟩
  next hlast =>
    refine ⟨?_, ?_, ?_, rfl⟩
    · rw [List.pairwise_append]
      refine ⟨hchain, List.pairwise_singleton _ _, ?_⟩
      intro b hb b' hb'
      have hbb : b' = bh := List.mem_singleton.mp hb'
      rw [hbb]
      rcases pairwise_le_getLast pt0.blocks hchain b hb with ⟨v, hv, hbv⟩
      have hvmem : v ∈ pt0.blocks := by
        rcases List.mem_getLast?_eq_getLast
          (show v ∈ pt0.blocks.getLast? from Option.mem_def.mpr hv) with ⟨hne2, heq⟩
        rw [heq]
        exact List.getLast_mem hne2
      have hvh : v ≤ bh := hle v hvmem
      have hvne : ¬ v = bh := by
        intro heq
        rw [heq] at hv
        exact hlast hv
      exact lt_of_le_of_lt hbv (lt_of_le_of_ne hvh hvne)
    · intro b hb
      rcases List.mem_append.mp hb with hb' | hb'
      · exact hle b hb'
      · rw [List.mem_singleton.mp hb']
    · intro heq
      exact absurd (List.append_eq_nil.mp heq).2 (by simp)

theorem outcome_pt2_transaction (pt0 : PendingTransaction) (rid : Hash)
    (bh : BlockHeight) :
    (outcome_pt2 pt0 rid bh).transaction = pt0.transaction ∧
    (outcome_pt2 pt0 rid bh).transaction_hash = pt0.transaction_hash := by
  unfold outcome_pt2
  dsimp only
  split
  · exact ⟨rfl, rfl⟩
  · exact ⟨rfl, rfl⟩

theorem finish_ptE_fields (eo : ExecutionOutcomeWithIdView) (receipt : ReceiptView)
    (ptC : PendingTransaction) :
    (finish_ptE eo receipt ptC).pending_receipt_ids =
      ptC.pending_receipt_ids ++ eo.outcome.receipt_ids ∧
    (finish_ptE eo receipt ptC).blocks = ptC.blocks ∧
    (finish_ptE eo receipt ptC).transaction_hash = ptC.transaction_hash :=
  ⟨rfl, rfl, rfl⟩

theorem mem_filter_ne (l : List Hash) (rid r : Hash)
    (hr : r ∈ l.filter (fun x => x != rid)) : r ∈ l ∧ ¬ r = rid := by
  rcases List.mem_filter.mp hr with ⟨h1, h2⟩
  exact ⟨h1, by simpa using h2⟩

/-- One outcome-pass step preserves the retained-transaction invariant. -/
theorem process_outcome_txinv (ctx : ExtractCtx) (wl : List WatchListEntry)
    (skip : Bool) (bh : BlockHeight) (cache : TxCache) (comp : List PendingTransaction)
    (o : IndexerExecutionOutcomeWithReceipt) (res : TxCache × List PendingTransaction)
    (hrun : process_outcome ctx wl skip bh (cache, comp) o = .ok res)
    (hinv : TxInv cache bh) : TxInv res.1 bh := by
  cases hm : mlookup cache.receipt_to_tx o.receipt.receipt_id with
  | none =>
    rw [process_outcome_eq_unmapped ctx wl skip bh cache comp o hm] at hrun
    revert hrun
    split
    · intro hrun
      injection hrun with hrun
      rw [← hrun]
      exact hinv
    · intro hrun
      exact Except.noConfusion hrun
  | some tx_hash =>
    cases ht : mlookup cache.transactions tx_hash with
    | none =>
      rw [process_outcome_eq_dangling ctx wl skip bh cache comp o tx_hash hm ht] at hrun
      exact Except.noConfusion hrun
    | some pt0 =>
      rw [process_outcome_eq_found ctx wl skip bh cache comp o tx_hash pt0 hm ht] at hrun
      have hC2 : TxInv
          { cache with
            receipt_to_tx := mremove cache.receipt_to_tx o.receipt.receipt_id
            transactions := mremove cache.transactions tx_hash } bh :=
        txinv_after_remove cache bh o.receipt.receipt_id tx_hash hm hinv
      have hpt0key : pt0.transaction_hash = tx_hash := hinv.tx_key tx_hash pt0 ht
      have hpt2 := outcome_pt2_blocks pt0 o.receipt.receipt_id bh
        (hinv.chain tx_hash pt0 ht) (hinv.blocks_le tx_hash pt0 ht)
        (hinv.blocks_ne tx_hash pt0 ht)
      rcases resolve_outcome_data_cases ctx wl skip comp _ _ _ _ res hrun with
        ⟨ids, actions, cM, ptM, hr, hf, hskip, hres⟩ |
        ⟨ids, actions, cC, ptC, hr, hf, hfin⟩
      · have hsame := (fetch_input_data_same ids _ _).2 cM ptM hf
        have hcM : TxInv cM bh := txinv_congr
          { cache with
            receipt_to_tx := mremove cache.receipt_to_tx o.receipt.receipt_id
            transactions := mremove cache.transactions tx_hash } cM bh
          hsame.2.2.1 hsame.2.1 hC2
        have hdisj : ∀ x q, mlookup cM.transactions x = some q →
            ∀ r ∈ q.pending_receipt_ids, r ∉ ptM.pending_receipt_ids := by
          intro x q hq r hr hrin
          have hxq : mlookup (mremove cache.transactions tx_hash) x = some q := by
            rw [← hq, hsame.2.2.1]
          have hx : ¬ x = tx_hash := by
            intro hx
            rw [hx, mlookup_mremove, if_pos rfl] at hxq
            exact Option.noConfusion hxq
          have hq' : mlookup cache.transactions x = some q := by
            rw [mlookup_mremove, if_neg hx] at hxq
            exact hxq
          have hmapx : mlookup cache.receipt_to_tx r = some x :=
            hinv.mapped x q hq' r hr
          have hrfil : r ∈ pt0.pending_receipt_ids.filter (fun y => y != o.receipt.receipt_id) := by
            rw [← hpt2.2.2.2, ← hsame.2.2.2.2.1]
            exact hrin
          rcases mem_filter_ne pt0.pending_receipt_ids o.receipt.receipt_id r hrfil with
            ⟨hrp, _⟩
          have hmaptx : mlookup cache.receipt_to_tx r = some tx_hash :=
            hinv.mapped tx_hash pt0 ht r hrp
          rw [hmapx] at hmaptx
          injection hmaptx with hmaptx
          exact hx hmaptx
        rw [hres]
        exact txinv_purge cM bh ptM.pending_receipt_ids hcM hdisj
      · have hsame := (fetch_input_data_same ids _ _).1 cC ptC hf
        have hcC : TxInv cC bh := txinv_congr
          { cache with
            receipt_to_tx := mremove cache.receipt_to_tx o.receipt.receipt_id
            transactions := mremove cache.transactions tx_hash } cC bh
          hsame.2.2.1 hsame.2.1 hC2
        rcases finish_outcome_cases ctx wl comp _ _ cC ptC res hfin with
          ⟨hemp, hres | hres⟩ | ⟨hne, c', hins, hres⟩
        · rw [hres]; exact hcC
        · rw [hres]; exact hcC
        · rw [hres]
          have hptEpend : (finish_ptE (trim_execution_outcome o.execution_outcome)
              o.receipt ptC).pending_receipt_ids =
              pt0.pending_receipt_ids.filter (fun y => y != o.receipt.receipt_id) ++
              (trim_execution_outcome o.execution_outcome).outcome.receipt_ids := by
            rw [(finish_ptE_fields _ _ _).1, hsame.2.2.2.2.1, hpt2.2.2.2]
          have hptEhash : (finish_ptE (trim_execution_outcome o.execution_outcome)
              o.receipt ptC).transaction_hash = tx_hash := by
            rw [(finish_ptE_fields _ _ _).2.2]
            have : ptC.transaction.transaction = (outcome_pt2 pt0 o.receipt.receipt_id bh).transaction.transaction := by
              rw [hsame.2.2.2.2.2.2.1]
            show ptC.transaction.transaction.hash = tx_hash
            rw [this, (outcome_pt2_transaction pt0 o.receipt.receipt_id bh).1]
            exact hpt0key
          have hptEblocks : (finish_ptE (trim_execution_outcome o.execution_outcome)
              o.receipt ptC).blocks = (outcome_pt2 pt0 o.receipt.receipt_id bh).blocks := by
            rw [(finish_ptE_fields _ _ _).2.1, hsame.2.2.2.2.2.1]
          refine insert_transaction_txinv cC _ _ c' bh hins hcC ?_ hne ?_ ?_ ?_
          · intro r hr
            rw [hptEpend] at hr
            rcases List.mem_append.mp hr with hr' | hr'
            · right
              rcases mem_filter_ne pt0.pending_receipt_ids o.receipt.receipt_id r hr' with
                ⟨hrp, hrne⟩
              have hmap : mlookup cache.receipt_to_tx r = some tx_hash :=
                hinv.mapped tx_hash pt0 ht r hrp
              have : mlookup cC.receipt_to_tx r = some tx_hash := by
                rw [hsame.2.1]
                show mlookup (mremove cache.receipt_to_tx o.receipt.receipt_id) r = some tx_hash
                rw [mlookup_mremove, if_neg hrne]
                exact hmap
              rw [this, hptEhash]
            · left
              exact hr'
          · rw [hptEblocks]
            exact hpt2.1
          · rw [hptEblocks]
            exact hpt2.2.1
          · rw [hptEblocks]
            exact hpt2.2.2.1

/-- `foldE_preserves` with membership of the step input available. -/
theorem foldE_preserves_mem {σ α : Type} (f : σ → α → Except String σ) (P : σ → Prop) :
    ∀ (l : List α), (∀ s x s', x ∈ l → f s x = .ok s' → P s → P s') →
      ∀ (s s' : σ), foldE f s l = .ok s' → P s → P s' := by
  intro l
  induction l with
  | nil =>
    intro _ s s' h hp
    rw [foldE] at h
    injection h with h
    rw [← h]
    exact hp
  | cons x t ih =>
    intro hf s s' h hp
    rw [foldE] at h
    revert h
    cases hfx : f s x with
    | ok s1 =>
      intro h
      exact ih (fun a y a' hy ha hpa => hf a y a' (List.mem_cons_of_mem x hy) ha hpa)
        s1 s' h (hf s x s1 (List.mem_cons_self x t) hfx hp)
    | error e => intro h; exact Except.noConfusion h

/-- A block whose submitted transactions all spawn at least one receipt. -/
def WfBlock (block : BlockWithTxHashes) : Prop :=
  ∀ shard ∈ block.shards, ∀ chunk, shard.chunk = some chunk →
    ∀ t ∈ chunk.transactions, t.execution_outcome.outcome.receipt_ids ≠ []

theorem process_chunk_transaction_txinv (hr : BlockHeaderView) (c : TxCache)
    (t : IndexerTransactionWithOutcome) (c' : TxCache)
    (hins : process_chunk_transaction hr c t = .ok c')
    (hwf : t.execution_outcome.outcome.receipt_ids ≠ [])
    (hinv : TxInv c hr.height) : TxInv c' hr.height := by
  unfold process_chunk_transaction at hins
  refine insert_transaction_txinv c _ _ c' hr.height hins hinv ?_ hwf ?_ ?_ ?_
  · intro r hrr
    exact Or.inl hrr
  · exact List.pairwise_singleton _ _
  · intro b hb
    rw [List.mem_singleton.mp hb]
  · simp

theorem process_chunk_receipt_txinv (c : TxCache) (r : ReceiptView) (c' : TxCache)
    (hins : process_chunk_receipt c r = .ok c') (H : Nat)
    (hinv : TxInv c H) : TxInv c' H := by
  unfold process_chunk_receipt at hins
  revert hins
  split
  · intro hins
    injection hins with hins
    rw [← hins]
    exact hinv
  · intro hins
    rw [insert_data_receipt_ok c _ _ c' hins]
    exact txinv_congr c _ H rfl rfl hinv

theorem chunk_pass_txinv (hr : BlockHeaderView) (c : TxCache)
    (shards : List IndexerShard) (c' : TxCache)
    (hrun : chunk_pass hr c shards = .ok c')
    (hwf : ∀ shard ∈ shards, ∀ chunk, shard.chunk = some chunk →
      ∀ t ∈ chunk.transactions, t.execution_outcome.outcome.receipt_ids ≠ [])
    (hinv : TxInv c hr.height) : TxInv c' hr.height := by
  unfold chunk_pass at hrun
  refine foldE_preserves_mem _ (fun x => TxInv x hr.height) shards ?_ c c' hrun hinv
  intro s shard s' hmem hs hp
  revert hs
  split
  · intro hs
    injection hs with hs
    rw [← hs]
    exact hp
  next chunk hchunk =>
    intro hs
    revert hs
    split
    next c1 h1 =>
      intro hs
      have e1 : TxInv c1 hr.height :=
        foldE_preserves_mem _ (fun x => TxInv x hr.height) chunk.transactions
          (fun a t a' htm ha hpa => process_chunk_transaction_txinv hr a t a' ha
            (hwf shard hmem chunk hchunk t htm) hpa)
          s c1 h1 hp
      exact foldE_preserves _ (fun x => TxInv x hr.height)
        (fun a t a' ha hpa => process_chunk_receipt_txinv a t a' ha hr.height hpa)
        chunk.receipts c1 s' hs e1
    next e h1 => intro hs; exact Except.noConfusion hs

theorem outcome_pass_txinv (ctx : ExtractCtx) (wl : List WatchListEntry)
    (skip : Bool) (bh : BlockHeight) (acc : TxCache × List PendingTransaction)
    (shards : List IndexerShard) (res : TxCache × List PendingTransaction)
    (hrun : outcome_pass ctx wl skip bh acc shards = .ok res)
    (hinv : TxInv acc.1 bh) : TxInv res.1 bh := by
  unfold outcome_pass at hrun
  refine foldE_preserves _ (fun a => TxInv a.1 bh) ?_ shards acc res hrun hinv
  intro s shard s' hs hp
  refine foldE_preserves _ (fun a => TxInv a.1 bh)
    (fun a o a' ha hpa => ?_) shard.receipt_execution_outcomes s s' hs hp
  obtain ⟨c0, l0⟩ := a
  exact process_outcome_txinv ctx wl skip bh c0 l0 o a' ha hpa

theorem block_tx_step_tx_fields (tx_hash : Hash) (signer_id : AccountId)
    (t : PendingTransaction) (st : ProcState) (bh : BlockHeight) (st' : ProcState)
    (hstep : block_tx_step tx_hash signer_id t st bh = .ok st') :
    st'.cache.transactions = st.cache.transactions ∧
    st'.cache.receipt_to_tx = st.cache.receipt_to_tx ∧
    st'.cache.last_block_height = st.cache.last_block_height := by
  unfold block_tx_step at hstep
  revert hstep
  cases hl : mlookup st.cache.block_headers bh with
  | none =>
    rw [get_and_remove_block_header_none st.cache bh hl]
    intro hstep
    injection hstep with hstep
    rw [← hstep]
    exact ⟨rfl, rfl, rfl⟩
  | some v =>
    rw [get_and_remove_block_header_some st.cache bh v hl]
    dsimp only
    intro hstep
    split at hstep
    next cache1 hins =>
      injection hstep with hstep
      rw [← hstep]
      rw [insert_block_header_ok _ v cache1 hins]
      exact ⟨rfl, rfl, rfl⟩
    next e hins => exact Except.noConfusion hstep

theorem process_transaction_tx_fields (ctx : ExtractCtx) (st : ProcState)
    (t : PendingTransaction) (st' : ProcState)
    (hrun : process_transaction ctx st t = .ok st') :
    st'.cache.transactions = st.cache.transactions ∧
    st'.cache.receipt_to_tx = st.cache.receipt_to_tx ∧
    st'.cache.last_block_height = st.cache.last_block_height := by
  unfold process_transaction at hrun
  split at hrun
  · exact Except.noConfusion hrun
  next last_bh hlast =>
    dsimp only at hrun
    split at hrun
    next e hfold => exact Except.noConfusion hrun
    next st1 hfold =>
      have h1 : st1.cache.transactions = st.cache.transactions ∧
          st1.cache.receipt_to_tx = st.cache.receipt_to_tx ∧
          st1.cache.last_block_height = st.cache.last_block_height :=
        foldE_preserves _
          (fun s => s.cache.transactions = st.cache.transactions ∧
            s.cache.receipt_to_tx = st.cache.receipt_to_tx ∧
            s.cache.last_block_height = st.cache.last_block_height)
          (fun s x s' hsx hp =>
            let r := block_tx_step_tx_fields t.transaction_hash
              t.transaction.transaction.signer_id t s x s' hsx
            ⟨r.1.trans hp.1, r.2.1.trans hp.2.1, r.2.2.trans hp.2.2⟩)
          t.blocks st st1 hfold ⟨rfl, rfl, rfl⟩
      injection hrun with hrun
      rw [← hrun]
      exact h1

theorem process_block_txinv (ctx : ExtractCtx) (pr : Params) (wl : List WatchListEntry)
    (st : ProcState) (block : BlockWithTxHashes) (ldb : BlockHeight) (st' : ProcState)
    (hrun : process_block ctx pr wl st block ldb = .ok st')
    (hinv : TxInv st.cache st.cache.last_block_height)
    (hmono : st.cache.last_block_height ≤ block.block.header.height)
    (hwf : WfBlock block) :
    TxInv st'.cache st'.cache.last_block_height ∧
    st'.cache.last_block_height = block.block.header.height := by
  unfold process_block at hrun
  dsimp only at hrun
  split at hrun
  · exact Except.noConfusion hrun
  next cache0 hbh =>
    split at hrun
    · exact Except.noConfusion hrun
    next cache1 hcp =>
      split at hrun
      · exact Except.noConfusion hrun
      next cache2 complete_transactions hop =>
        have hinv0 : TxInv cache0 block.block.header.height := by
          rw [insert_block_header_ok st.cache block.block.header cache0 hbh]
          exact txinv_congr st.cache _ _ rfl rfl
            (txinv_mono st.cache _ _ hmono hinv)
        have hinv1 : TxInv cache1 block.block.header.height :=
          chunk_pass_txinv block.block.header cache0 block.shards cache1 hcp hwf hinv0
        have hinv2 : TxInv cache2 block.block.header.height :=
          outcome_pass_txinv ctx wl _ _ (cache1, []) block.shards
            (cache2, complete_transactions) hop hinv1
        have hinv3 : TxInv cache2.trim_headers block.block.header.height :=
          txinv_congr cache2 cache2.trim_headers _ rfl rfl hinv2
        revert hrun
        split
        next e hst2 => intro hrun; exact Except.noConfusion hrun
        next st2 hst2 =>
          intro hrun
          injection hrun with hrun
          have hst2inv : TxInv st2.cache block.block.header.height ∧
              st2.cache.last_block_height = block.block.header.height := by
            revert hst2
            split
            · intro hst2
              exact foldE_preserves _
                (fun s => TxInv s.cache block.block.header.height ∧
                  s.cache.last_block_height = block.block.header.height)
                (fun s x s' hsx hp =>
                  let r := process_transaction_tx_fields ctx s x s' hsx
                  ⟨txinv_congr s.cache s'.cache _ r.1 r.2.1 hp.1, r.2.2.trans hp.2⟩)
                complete_transactions _ st2 hst2
                ⟨txinv_congr cache2.trim_headers _ _ rfl rfl hinv3, rfl⟩
            · intro hst2
              injection hst2 with hst2
              rw [← hst2]
              exact ⟨txinv_congr cache2.trim_headers _ _ rfl rfl hinv3, rfl⟩
          have hlast2 : st2.cache.last_block_height = block.block.header.height :=
            hst2inv.2
          rw [← hrun]
          rw [show (maybe_commit pr st2 block.block.header.height).cache = st2.cache from
            maybe_commit_cache pr st2 block.block.header.height]
          rw [hlast2]
          exact ⟨hst2inv.1, rfl⟩

/-- "Processed in order": each block's height is at least the previous
processed height. -/
def heightsMono : Nat → List BlockWithTxHashes → Prop
  | _, [] => True
  | prev, b :: rest =>
    prev ≤ b.block.header.height ∧ heightsMono b.block.header.height rest

theorem process_blocks_txinv (ctx : ExtractCtx) (pr : Params) (wl : List WatchListEntry)
    (ldb : BlockHeight) :
    ∀ (blocks : List BlockWithTxHashes) (st st' : ProcState),
      process_blocks ctx pr wl ldb st blocks = .ok st' →
      heightsMono st.cache.last_block_height blocks →
      (∀ b ∈ blocks, WfBlock b) →
      TxInv st.cache st.cache.last_block_height →
      TxInv st'.cache st'.cache.last_block_height := by
  intro blocks
  induction blocks with
  | nil =>
    intro st st' hrun _ _ hinv
    rw [process_blocks, foldE] at hrun
    injection hrun with hrun
    rw [← hrun]
    exact hinv
  | cons b rest ih =>
    intro st st' hrun hmono hwf hinv
    rw [process_blocks, foldE] at hrun
    revert hrun
    cases hstep : process_block ctx pr wl st b ldb with
    | error e => intro hrun; exact Except.noConfusion hrun
    | ok st1 =>
      intro hrun
      rcases process_block_txinv ctx pr wl st b ldb st1 hstep hinv hmono.1
        (hwf b (List.mem_cons_self b rest)) with ⟨hinv1, hlast1⟩
      refine ih st1 st' hrun ?_ (fun x hx => hwf x (List.mem_cons_of_mem b hx)) hinv1
      rw [hlast1]
      exact hmono.2

theorem txinv_init : TxInv initProcState.cache initProcState.cache.last_block_height := by
  refine ⟨?_, ?_, ?_, ?_, ?_, ?_⟩ <;>
    intro h pt hpt <;> exact Option.noConfusion hpt

/-- C1, amended.  For every sequence of blocks processed in order (heights
non-decreasing) in which every submitted transaction's outcome spawns at
least one receipt, after `process_block` returns, every `PendingTransaction`
retained in the cache's transactions map has non-empty
`pending_receipt_ids`, every id in that list is present in `receipt_to_tx`
mapping to the transaction's hash, and the transaction's `blocks` list is
strictly increasing. -/
theorem c1_retained_transaction_invariant (ctx : ExtractCtx) (pr : Params)
    (wl : List WatchListEntry) (ldb : BlockHeight)
    (blocks : List BlockWithTxHashes) (st' : ProcState)
    (hmono : heightsMono initProcState.cache.last_block_height blocks)
    (hwf : ∀ b ∈ blocks, WfBlock b)
    (hrun : process_blocks ctx pr wl ldb initProcState blocks = .ok st') :
    ∀ h pt, mlookup st'.cache.transactions h = some pt →
      pt.pending_receipt_ids ≠ [] ∧
      (∀ r ∈ pt.pending_receipt_ids,
        mlookup st'.cache.receipt_to_tx r = some pt.transaction_hash) ∧
      List.Pairwise (· < ·) pt.blocks := by
  have hinv := process_blocks_txinv ctx pr wl ldb blocks initProcState st' hrun
    hmono hwf txinv_init
  intro h pt hpt
  refine ⟨hinv.nonempty h pt hpt, ?_, hinv.chain h pt hpt⟩
  intro r hr
  rw [hinv.tx_key h pt hpt]
  exact hinv.mapped h pt hpt r hr

/-- A block whose only submitted transaction spawns no receipts at all
(empty `receipt_ids`). -/
def c1Block : BlockWithTxHashes :=
  { block := { header := { height := 1, hash := 90, timestamp := 7 } }
    shards :=
      [{ chunk := some
           { transactions :=
               [{ transaction := { hash := 5, signer_id := "a" }
                  execution_outcome :=
                    { proof := []
                      block_hash := 90
                      id := 40
                      outcome :=
                        { logs := []
                          receipt_ids := []
                          gas_burnt := 1
                          tokens_burnt := 1
                          executor_id := "a"
                          status := 0
                          metadata := { version := 1, gas_profile := none } } } }]
             receipts := [] }
         receipt_execution_outcomes := [] }] }

def c1CexState : ProcState :=
  (process_blocks ctxW prW [] 0 initProcState [c1Block]).toOption.getD initProcState

def c1CexPt : PendingTransaction :=
  (mlookup c1CexState.cache.transactions 5).getD ptBW

/-- C1 counterexample.  Processing the single block `c1Block` — a sequence
of blocks in order — succeeds and retains a `PendingTransaction` (under
hash 5) whose `pending_receipt_ids` is empty, contradicting the claim that
every retained transaction has a non-empty pending set after
`process_block` returns. -/
theorem c1_counterexample :
    process_blocks ctxW prW [] 0 initProcState [c1Block] = .ok c1CexState ∧
    mlookup c1CexState.cache.transactions 5 = some c1CexPt ∧
    c1CexPt.pending_receipt_ids = [] :=
  ⟨rfl, rfl, rfl⟩

def c1WState : ProcState :=
  (process_blocks ctxW prW [] 0 initProcState [blockW]).toOption.getD initProcState

def c1WPt : PendingTransaction :=
  (mlookup c1WState.cache.transactions 5).getD ptBW

theorem c1_retained_transaction_invariant_witness :
    c1WPt.pending_receipt_ids ≠ [] ∧
    mlookup c1WState.cache.receipt_to_tx 2 = some c1WPt.transaction_hash ∧
    List.Pairwise (· < ·) c1WPt.blocks := by
  have H := c1_retained_transaction_invariant ctxW prW [] 0 [blockW] c1WState
    (by exact ⟨Nat.zero_le 1, trivial⟩)
    (by
      intro b hb shard hs chunk hc t htm
      rw [List.mem_singleton.mp hb] at hs
      rcases List.mem_singleton.mp hs with rfl
      injection hc with hc
      rw [← hc] at htm
      rcases List.mem_singleton.mp htm with rfl
      decide)
    (by rfl)
  rcases H 5 c1WPt (by rfl) with ⟨h1, h2, h3⟩
  exact ⟨h1, h2 2 (by decide), h3⟩

/-! ## Claim C9: the receipt→tx / transactions sync invariant -/

/-- The sync invariant: every binding of `receipt_to_tx` points at a stored
transaction that has the bound receipt id pending (so in particular every
value of `receipt_to_tx` is a key of `transactions`), and conversely. -/
structure RtxInv (c : TxCache) : Prop where
  tx_key : ∀ h pt, mlookup c.transactions h = some pt → pt.transaction_hash = h
  mapped : ∀ h pt, mlookup c.transactions h = some pt →
    ∀ r ∈ pt.pending_receipt_ids, mlookup c.receipt_to_tx r = some h
  owner : ∀ r t, mlookup c.receipt_to_tx r = some t →
    ∃ pt, mlookup c.transactions t = some pt ∧ r ∈ pt.pending_receipt_ids

theorem rtxinv_congr (c c' : TxCache)
    (htx : c'.transactions = c.transactions)
    (hrt : c'.receipt_to_tx = c.receipt_to_tx) (hinv : RtxInv c) : RtxInv c' := by
  refine ⟨?_, ?_, ?_⟩
  · rw [htx]; exact hinv.tx_key
  · rw [htx, hrt]; exact hinv.mapped
  · rw [htx, hrt]; exact hinv.owner

theorem insert_transaction_rtxinv (c : TxCache) (pt : PendingTransaction)
    (ids : List Hash) (c' : TxCache)
    (hins : c.insert_transaction pt ids = .ok c')
    (hkey : ∀ h q, mlookup c.transactions h = some q → q.transaction_hash = h)
    (hmapped : ∀ h q, mlookup c.transactions h = some q →
      ∀ r ∈ q.pending_receipt_ids, mlookup c.receipt_to_tx r = some h)
    (howner : ∀ r t, mlookup c.receipt_to_tx r = some t → ¬ t = pt.transaction_hash →
      ∃ q, mlookup c.transactions t = some q ∧ r ∈ q.pending_receipt_ids)
    (hcov : ∀ r ∈ pt.pending_receipt_ids,
      r ∈ ids ∨ mlookup c.receipt_to_tx r = some pt.transaction_hash)
    (hpend : ∀ r ∈ ids, r ∈ pt.pending_receipt_ids)
    (hold : ∀ r, mlookup c.receipt_to_tx r = some pt.transaction_hash →
      r ∈ pt.pending_receipt_ids) : RtxInv c' := by
  rcases insert_transaction_ok c pt ids c' hins with ⟨hrt, hcompat, htx, _, _, _⟩
  refine ⟨?_, ?_, ?_⟩
  · intro h q hq
    rw [htx] at hq
    by_cases hh : h = pt.transaction_hash
    · rw [if_pos hh] at hq
      injection hq with hq
      rw [← hq, hh]
    · rw [if_neg hh] at hq
      exact hkey h q hq
  · intro h q hq r hr
    rw [htx] at hq
    rw [hrt]
    by_cases hh : h = pt.transaction_hash
    · rw [if_pos hh] at hq
      injection hq with hq
      rw [← hq] at hr
      rcases hcov r hr with hrid | hmapped2
      · rw [if_pos hrid, hh]
      · by_cases hrid : r ∈ ids
        · rw [if_pos hrid, hh]
        · rw [if_neg hrid, hmapped2, hh]
    · rw [if_neg hh] at hq
      have holdm := hmapped h q hq r hr
      by_cases hrid : r ∈ ids
      · exact absurd (hcompat r h hrid holdm) hh
      · rw [if_neg hrid]
        exact holdm
  · intro r t hrt2
    rw [hrt] at hrt2
    rw [htx]
    by_cases hrid : r ∈ ids
    · rw [if_pos hrid] at hrt2
      injection hrt2 with hrt2
      rw [← hrt2]
      exact ⟨pt, by rw [if_pos rfl], hpend r hrid⟩
    · rw [if_neg hrid] at hrt2
      by_cases ht : t = pt.transaction_hash
      · refine ⟨pt, by rw [if_pos ht], ?_⟩
        rw [ht] at hrt2
        exact hold r hrt2
      · rcases howner r t hrt2 ht with ⟨q, hq, hrq⟩
        exact ⟨q, by rw [if_neg ht]; exact hq, hrq⟩

theorem outcome_pt2_pending (pt0 : PendingTransaction) (rid : Hash)
    (bh : BlockHeight) :
    (outcome_pt2 pt0 rid bh).pending_receipt_ids =
      pt0.pending_receipt_ids.filter (fun r => r != rid) := by
  unfold outcome_pt2
  dsimp only
  split
  · rfl
  · rfl

/-- One outcome-pass step preserves the receipt→tx sync invariant. -/
theorem process_outcome_rtxinv (ctx : ExtractCtx) (wl : List WatchListEntry)
    (skip : Bool) (bh : BlockHeight) (cache : TxCache) (comp : List PendingTransaction)
    (o : IndexerExecutionOutcomeWithReceipt) (res : TxCache × List PendingTransaction)
    (hrun : process_outcome ctx wl skip bh (cache, comp) o = .ok res)
    (hinv : RtxInv cache) : RtxInv res.1 := by
  cases hm : mlookup cache.receipt_to_tx o.receipt.receipt_id with
  | none =>
    rw [process_outcome_eq_unmapped ctx wl skip bh cache comp o hm] at hrun
    revert hrun
    split
    · intro hrun
      injection hrun with hrun
      rw [← hrun]
      exact hinv
    · intro hrun
      exact Except.noConfusion hrun
  | some tx_hash =>
    cases ht : mlookup cache.transactions tx_hash with
    | none =>
      rcases hinv.owner o.receipt.receipt_id tx_hash hm with ⟨q, hq, _⟩
      rw [hq] at ht
      exact Option.noConfusion ht
    | some pt0 =>
      rw [process_outcome_eq_found ctx wl skip bh cache comp o tx_hash pt0 hm ht] at hrun
      rcases resolve_outcome_data_cases ctx wl skip comp _ _ _ _ res hrun with
        ⟨ids, actions, cM, ptM, hr, hf, hskip, hres⟩ |
        ⟨ids, actions, cC, ptC, hr, hf, hfin⟩
      · have hsame := (fetch_input_data_same ids _ _).2 cM ptM hf
        have htxM : ∀ h q, mlookup cM.transactions h = some q →
            ¬ h = tx_hash ∧ mlookup cache.transactions h = some q := by
          intro h q hq
          have hq2 : mlookup (mremove cache.transactions tx_hash) h = some q := by
            rw [← hq, hsame.2.2.1]
          rw [mlookup_mremove] at hq2
          by_cases hh : h = tx_hash
          · rw [if_pos hh] at hq2
            exact Option.noConfusion hq2
          · rw [if_neg hh] at hq2
            exact ⟨hh, hq2⟩
        have hrtM : ∀ r t, mlookup cM.receipt_to_tx r = some t →
            ¬ r = o.receipt.receipt_id ∧ mlookup cache.receipt_to_tx r = some t := by
          intro r t hrt2
          have h2 : mlookup (mremove cache.receipt_to_tx o.receipt.receipt_id) r = some t := by
            rw [← hrt2, hsame.2.1]
          rw [mlookup_mremove] at h2
          by_cases hrr : r = o.receipt.receipt_id
          · rw [if_pos hrr] at h2
            exact Option.noConfusion h2
          · rw [if_neg hrr] at h2
            exact ⟨hrr, h2⟩
        have hptMpend : ptM.pending_receipt_ids =
            pt0.pending_receipt_ids.filter (fun y => y != o.receipt.receipt_id) := by
          rw [hsame.2.2.2.2.1, outcome_pt2_pending]
        rw [hres]
        refine ⟨?_, ?_, ?_⟩
        · intro h q hq
          exact hinv.tx_key h q (htxM h q hq).2
        · intro h q hq r hr
          rcases htxM h q hq with ⟨hh, hq'⟩
          have hmap : mlookup cache.receipt_to_tx r = some h := hinv.mapped h q hq' r hr
          have hrne : ¬ r = o.receipt.receipt_id := by
            intro he
            rw [he, hm] at hmap
            injection hmap with hmap
            exact hh hmap.symm
          have hrS : r ∉ ptM.pending_receipt_ids := by
            intro hrS
            rw [hptMpend] at hrS
            rcases mem_filter_ne _ _ _ hrS with ⟨hrp, _⟩
            have hmaptx : mlookup cache.receipt_to_tx r = some tx_hash :=
              hinv.mapped tx_hash pt0 ht r hrp
            rw [hmap] at hmaptx
            injection hmaptx with hmaptx
            exact hh hmaptx
          show mlookup (purge cM.receipt_to_tx ptM.pending_receipt_ids) r = some h
          rw [mlookup_purge, if_neg hrS, hsame.2.1]
          show mlookup (mremove cache.receipt_to_tx o.receipt.receipt_id) r = some h
          rw [mlookup_mremove, if_neg hrne]
          exact hmap
        · intro r t hrt2
          have h2 : mlookup cM.receipt_to_tx r = some t ∧
              r ∉ ptM.pending_receipt_ids := by
            have h3 : mlookup (purge cM.receipt_to_tx ptM.pending_receipt_ids) r =
                some t := hrt2
            rw [mlookup_purge] at h3
            by_cases hrS : r ∈ ptM.pending_receipt_ids
            · rw [if_pos hrS] at h3
              exact Option.noConfusion h3
            · rw [if_neg hrS] at h3
              exact ⟨h3, hrS⟩
          rcases hrtM r t h2.1 with ⟨hrne, hmap⟩
          by_cases htt : t = tx_hash
          · exfalso
            rcases hinv.owner r t hmap with ⟨q, hq, hrq⟩
            rw [htt, ht] at hq
            injection hq with hq
            rw [← hq] at hrq
            have hrfil : r ∈ pt0.pending_receipt_ids.filter
                (fun y => y != o.receipt.receipt_id) :=
              List.mem_filter.mpr ⟨hrq, by simpa using hrne⟩
            rw [← hptMpend] at hrfil
            exact h2.2 hrfil
          · rcases hinv.owner r t hmap with ⟨q, hq, hrq⟩
            refine ⟨q, ?_, hrq⟩
            show mlookup cM.transactions t = some q
            rw [hsame.2.2.1]
            show mlookup (mremove cache.transactions tx_hash) t = some q
            rw [mlookup_mremove, if_neg htt]
            exact hq
      · have hsame := (fetch_input_data_same ids _ _).1 cC ptC hf
        have htxC : ∀ h q, mlookup cC.transactions h = some q →
            ¬ h = tx_hash ∧ mlookup cache.transactions h = some q := by
          intro h q hq
          have hq2 : mlookup (mremove cache.transactions tx_hash) h = some q := by
            rw [← hq, hsame.2.2.1]
          rw [mlookup_mremove] at hq2
          by_cases hh : h = tx_hash
          · rw [if_pos hh] at hq2
            exact Option.noConfusion hq2
          · rw [if_neg hh] at hq2
            exact ⟨hh, hq2⟩
        have hrtC : ∀ r t, mlookup cC.receipt_to_tx r = some t →
            ¬ r = o.receipt.receipt_id ∧ mlookup cache.receipt_to_tx r = some t := by
          intro r t hrt2
          have h2 : mlookup (mremove cache.receipt_to_tx o.receipt.receipt_id) r = some t := by
            rw [← hrt2, hsame.2.1]
          rw [mlookup_mremove] at h2
          by_cases hrr : r = o.receipt.receipt_id
          · rw [if_pos hrr] at h2
            exact Option.noConfusion h2
          · rw [if_neg hrr] at h2
            exact ⟨hrr, h2⟩
        have hrtC2 : ∀ r, ¬ r = o.receipt.receipt_id →
            mlookup cache.receipt_to_tx r = some tx_hash →
            mlookup cC.receipt_to_tx r = some tx_hash := by
          intro r hrne hmap
          rw [hsame.2.1]
          show mlookup (mremove cache.receipt_to_tx o.receipt.receipt_id) r = some tx_hash
          rw [mlookup_mremove, if_neg hrne]
          exact hmap
        have hptCpend : ptC.pending_receipt_ids =
            pt0.pending_receipt_ids.filter (fun y => y != o.receipt.receipt_id) := by
          rw [hsame.2.2.2.2.1, outcome_pt2_pending]
        have hownerTx : ∀ r, mlookup cache.receipt_to_tx r = some tx_hash →
            r ∈ pt0.pending_receipt_ids := by
          intro r hmap
          rcases hinv.owner r tx_hash hmap with ⟨q, hq, hrq⟩
          rw [ht] at hq
          injection hq with hq
          rw [← hq] at hrq
          exact hrq
        rcases finish_outcome_cases ctx wl comp _ _ cC ptC res hfin with
          ⟨hemp, hres | hres⟩ | ⟨hne, c', hins, hres⟩
        · have h1 := (finish_ptE_fields (trim_execution_outcome o.execution_outcome)
            o.receipt ptC).1
          rw [h1] at hemp
          have hptCnil : ptC.pending_receipt_ids = [] := (List.append_eq_nil.mp hemp).1
          rw [hres]
          refine ⟨?_, ?_, ?_⟩
          · intro h q hq
            exact hinv.tx_key h q (htxC h q hq).2
          · intro h q hq r hr
            rcases htxC h q hq with ⟨hh, hq'⟩
            have hmap : mlookup cache.receipt_to_tx r = some h := hinv.mapped h q hq' r hr
            have hrne : ¬ r = o.receipt.receipt_id := by
              intro he
              rw [he, hm] at hmap
              injection hmap with hmap
              exact hh hmap.symm
            show mlookup cC.receipt_to_tx r = some h
            rw [hsame.2.1]
            show mlookup (mremove cache.receipt_to_tx o.receipt.receipt_id) r = some h
            rw [mlookup_mremove, if_neg hrne]
            exact hmap
          · intro r t hrt2
            rcases hrtC r t hrt2 with ⟨hrne, hmap⟩
            by_cases htt : t = tx_hash
            · exfalso
              rw [htt] at hmap
              have hrp := hownerTx r hmap
              have hrfil : r ∈ pt0.pending_receipt_ids.filter
                  (fun y => y != o.receipt.receipt_id) :=
                List.mem_filter.mpr ⟨hrp, by simpa using hrne⟩
              rw [← hptCpend, hptCnil] at hrfil
              exact List.not_mem_nil r hrfil
            · rcases hinv.owner r t hmap with ⟨q, hq, hrq⟩
              refine ⟨q, ?_, hrq⟩
              show mlookup cC.transactions t = some q
              rw [hsame.2.2.1]
              show mlookup (mremove cache.transactions tx_hash) t = some q
              rw [mlookup_mremove, if_neg htt]
              exact hq
        · rw [hres]
          refine ⟨?_, ?_, ?_⟩
          · intro h q hq
            exact hinv.tx_key h q (htxC h q hq).2
          · intro h q hq r hr
            rcases htxC h q hq with ⟨hh, hq'⟩
            have hmap : mlookup cache.receipt_to_tx r = some h := hinv.mapped h q hq' r hr
            have hrne : ¬ r = o.receipt.receipt_id := by
              intro he
              rw [he, hm] at hmap
              injection hmap with hmap
              exact hh hmap.symm
            show mlookup cC.receipt_to_tx r = some h
            rw [hsame.2.1]
            show mlookup (mremove cache.receipt_to_tx o.receipt.receipt_id) r = some h
            rw [mlookup_mremove, if_neg hrne]
            exact hmap
          · intro r t hrt2
            rcases hrtC r t hrt2 with ⟨hrne, hmap⟩
            by_cases htt : t = tx_hash
            · exfalso
              rw [htt] at hmap
              have hrp := hownerTx r hmap
              have h1 := (finish_ptE_fields (trim_execution_outcome o.execution_outcome)
                o.receipt ptC).1
              rw [h1] at hemp
              have hptCnil : ptC.pending_receipt_ids = [] :=
                (List.append_eq_nil.mp hemp).1
              have hrfil : r ∈ pt0.pending_receipt_ids.filter
                  (fun y => y != o.receipt.receipt_id) :=
                List.mem_filter.mpr ⟨hrp, by simpa using hrne⟩
              rw [← hptCpend, hptCnil] at hrfil
              exact List.not_mem_nil r hrfil
            · rcases hinv.owner r t hmap with ⟨q, hq, hrq⟩
              refine ⟨q, ?_, hrq⟩
              show mlookup cC.transactions t = some q
              rw [hsame.2.2.1]
              show mlookup (mremove cache.transactions tx_hash) t = some q
              rw [mlookup_mremove, if_neg htt]
              exact hq
        · have hpt0key : pt0.transaction_hash = tx_hash := hinv.tx_key tx_hash pt0 ht
          have hptEpend : (finish_ptE (trim_execution_outcome o.execution_outcome)
              o.receipt ptC).pending_receipt_ids =
              pt0.pending_receipt_ids.filter (fun y => y != o.receipt.receipt_id) ++
              (trim_execution_outcome o.execution_outcome).outcome.receipt_ids := by
            rw [(finish_ptE_fields _ _ _).1, hptCpend]
          have hptEhash : (finish_ptE (trim_execution_outcome o.execution_outcome)
              o.receipt ptC).transaction_hash = tx_hash := by
            rw [(finish_ptE_fields _ _ _).2.2]
            have h2 : ptC.transaction.transaction =
                (outcome_pt2 pt0 o.receipt.receipt_id bh).transaction.transaction := by
              rw [hsame.2.2.2.2.2.2.1]
            show ptC.transaction.transaction.hash = tx_hash
            rw [h2, (outcome_pt2_transaction pt0 o.receipt.receipt_id bh).1]
            exact hpt0key
          rw [hres]
          refine insert_transaction_rtxinv cC _ _ c' hins ?_ ?_ ?_ ?_ ?_ ?_
          · intro h q hq
            exact hinv.tx_key h q (htxC h q hq).2
          · intro h q hq r hr
            rcases htxC h q hq with ⟨hh, hq'⟩
            have hmap : mlookup cache.receipt_to_tx r = some h := hinv.mapped h q hq' r hr
            have hrne : ¬ r = o.receipt.receipt_id := by
              intro he
              rw [he, hm] at hmap
              injection hmap with hmap
              exact hh hmap.symm
            show mlookup cC.receipt_to_tx r = some h
            rw [hsame.2.1]
            show mlookup (mremove cache.receipt_to_tx o.receipt.receipt_id) r = some h
            rw [mlookup_mremove, if_neg hrne]
            exact hmap
          · intro r t hrt2 htne
            rw [hptEhash] at htne
            rcases hrtC r t hrt2 with ⟨hrne, hmap⟩
            rcases hinv.owner r t hmap with ⟨q, hq, hrq⟩
            refine ⟨q, ?_, hrq⟩
            show mlookup cC.transactions t = some q
            rw [hsame.2.2.1]
            show mlookup (mremove cache.transactions tx_hash) t = some q
            rw [mlookup_mremove, if_neg htne]
            exact hq
          · intro r hr
            rw [hptEpend] at hr
            rcases List.mem_append.mp hr with hr' | hr'
            · right
              rcases mem_filter_ne pt0.pending_receipt_ids o.receipt.receipt_id r hr' with
                ⟨hrp, hrne⟩
              have hmap : mlookup cache.receipt_to_tx r = some tx_hash :=
                hinv.mapped tx_hash pt0 ht r hrp
              rw [hptEhash]
              exact hrtC2 r hrne hmap
            · left
              exact hr'
          · intro r hr
            rw [hptEpend]
            exact List.mem_append.mpr (Or.inr hr)
          · intro r hmapE
            rw [hptEhash] at hmapE
            rcases hrtC r tx_hash hmapE with ⟨hrne, hmap⟩
            have hrp := hownerTx r hmap
            rw [hptEpend]
            refine List.mem_append.mpr (Or.inl ?_)
            exact List.mem_filter.mpr ⟨hrp, by simpa using hrne⟩

theorem insert_receipt_to_tx_ne_missing (c : TxCache) (r tx : Hash) :
    c.insert_receipt_to_tx r tx ≠ .error "Missing transaction for receipt" := by
  unfold TxCache.insert_receipt_to_tx
  split
  · split
    · exact fun h => Except.noConfusion h
    · intro h
      injection h with h
      exact absurd h (by decide)
  · exact fun h => Except.noConfusion h

theorem foldE_ne_error {σ α : Type} (f : σ → α → Except String σ) (bad : String)
    (hf : ∀ s x, f s x ≠ .error bad) :
    ∀ (l : List α) (s : σ), foldE f s l ≠ .error bad := by
  intro l
  induction l with
  | nil =>
    intro s h
    rw [foldE] at h
    exact Except.noConfusion h
  | cons x t ih =>
    intro s h
    rw [foldE] at h
    revert h
    cases hfx : f s x with
    | ok s1 => intro h; exact ih s1 h
    | error e =>
      intro h
      injection h with h
      rw [h] at hfx
      exact hf s x hfx

theorem insert_transaction_ne_missing (c : TxCache) (pt : PendingTransaction)
    (ids : List Hash) :
    c.insert_transaction pt ids ≠ .error "Missing transaction for receipt" := by
  unfold TxCache.insert_transaction
  dsimp only
  intro h
  revert h
  cases hfold : foldE (fun c r => c.insert_receipt_to_tx r pt.transaction_hash) c ids with
  | ok c1 => intro h; exact Except.noConfusion h
  | error e =>
    intro h
    injection h with h
    rw [h] at hfold
    exact foldE_ne_error _ _
      (fun s x => insert_receipt_to_tx_ne_missing s x pt.transaction_hash) ids c hfold

theorem finish_outcome_ne_missing (ctx : ExtractCtx) (wl : List WatchListEntry)
    (comp : List PendingTransaction) (eo : ExecutionOutcomeWithIdView)
    (receipt : ReceiptView) (cC : TxCache) (ptC : PendingTransaction) :
    finish_outcome ctx wl comp eo receipt cC ptC ≠
      .error "Missing transaction for receipt" := by
  unfold finish_outcome
  dsimp only
  split
  · split
    · exact fun h => Except.noConfusion h
    · exact fun h => Except.noConfusion h
  · split
    next c' hins => exact fun h => Except.noConfusion h
    next e hins =>
      intro h
      injection h with h
      rw [h] at hins
      exact insert_transaction_ne_missing _ _ _ hins

theorem resolve_outcome_data_ne_missing (ctx : ExtractCtx) (wl : List WatchListEntry)
    (skip : Bool) (comp : List PendingTransaction) (eo : ExecutionOutcomeWithIdView)
    (receipt : ReceiptView) (cache : TxCache) (pt2 : PendingTransaction) :
    resolve_outcome_data ctx wl skip comp eo receipt cache pt2 ≠
      .error "Missing transaction for receipt" := by
  unfold resolve_outcome_data
  split
  · intro h
    injection h with h
    exact absurd h (by decide)
  · split
    · split
      · exact fun h => Except.noConfusion h
      · intro h
        injection h with h
        exact absurd h (by decide)
    · exact finish_outcome_ne_missing _ _ _ _ _ _ _

/-- Under the sync invariant, the `expect "Missing transaction for receipt"`
branch of the outcome pass is unreachable. -/
theorem process_outcome_ne_missing (ctx : ExtractCtx) (wl : List WatchListEntry)
    (skip : Bool) (bh : BlockHeight) (cache : TxCache) (comp : List PendingTransaction)
    (o : IndexerExecutionOutcomeWithReceipt) (hinv : RtxInv cache) :
    process_outcome ctx wl skip bh (cache, comp) o ≠
      .error "Missing transaction for receipt" := by
  cases hm : mlookup cache.receipt_to_tx o.receipt.receipt_id with
  | none =>
    rw [process_outcome_eq_unmapped ctx wl skip bh cache comp o hm]
    split
    · exact fun h => Except.noConfusion h
    · intro h
      injection h with h
      exact absurd h (by decide)
  | some tx_hash =>
    cases ht : mlookup cache.transactions tx_hash with
    | none =>
      rcases hinv.owner o.receipt.receipt_id tx_hash hm with ⟨q, hq, _⟩
      rw [hq] at ht
      exact Option.noConfusion ht
    | some pt0 =>
      rw [process_outcome_eq_found ctx wl skip bh cache comp o tx_hash pt0 hm ht]
      exact resolve_outcome_data_ne_missing _ _ _ _ _ _ _ _

theorem foldE_inv_ne {σ α : Type} (f : σ → α → Except String σ) (P : σ → Prop)
    (bad : String)
    (hf : ∀ s x, P s → (∀ s', f s x = .ok s' → P s') ∧ f s x ≠ .error bad) :
    ∀ (l : List α) (s : σ), P s →
      (∀ s', foldE f s l = .ok s' → P s') ∧ foldE f s l ≠ .error bad := by
  intro l
  induction l with
  | nil =>
    intro s hp
    refine ⟨?_, ?_⟩
    · intro s' h
      rw [foldE] at h
      injection h with h
      rw [← h]
      exact hp
    · intro h
      rw [foldE] at h
      exact Except.noConfusion h
  | cons x t ih =>
    intro s hp
    rcases hf s x hp with ⟨hok, hne⟩
    constructor
    · intro s' h
      rw [foldE] at h
      revert h
      cases hfx : f s x with
      | ok s1 => intro h; exact (ih s1 (hok s1 hfx)).1 s' h
      | error e => intro h; exact Except.noConfusion h
    · intro h
      rw [foldE] at h
      revert h
      cases hfx : f s x with
      | ok s1 => intro h; exact (ih s1 (hok s1 hfx)).2 h
      | error e =>
        intro h
        injection h with h
        rw [h] at hfx
        exact hne hfx

/-- The full outcome pass: the sync invariant is preserved, and the
`expect "Missing transaction for receipt"` branch is never taken. -/
theorem outcome_pass_rtxinv (ctx : ExtractCtx) (wl : List WatchListEntry)
    (skip : Bool) (bh : BlockHeight) (acc : TxCache × List PendingTransaction)
    (shards : List IndexerShard) (hinv : RtxInv acc.1) :
    (∀ res, outcome_pass ctx wl skip bh acc shards = .ok res → RtxInv res.1) ∧
    outcome_pass ctx wl skip bh acc shards ≠
      .error "Missing transaction for receipt" := by
  unfold outcome_pass
  refine foldE_inv_ne _ (fun a => RtxInv a.1) _ ?_ shards acc hinv
  intro s shard hp
  refine foldE_inv_ne _ (fun a => RtxInv a.1) _ ?_ shard.receipt_execution_outcomes s hp
  intro a o hpa
  obtain ⟨c0, l0⟩ := a
  exact ⟨fun a' ha => process_outcome_rtxinv ctx wl skip bh c0 l0 o a' ha hpa,
    process_outcome_ne_missing ctx wl skip bh c0 l0 o hpa⟩

/-- All transactions submitted in a block's chunks, in processing order. -/
def chunkTxs : List IndexerShard → List IndexerTransactionWithOutcome
  | [] => []
  | shard :: rest =>
    (match shard.chunk with
      | none => []
      | some chunk => chunk.transactions) ++ chunkTxs rest

theorem process_chunk_receipt_fields (c : TxCache) (r : ReceiptView) (c' : TxCache)
    (h : process_chunk_receipt c r = .ok c') :
    c'.transactions = c.transactions ∧ c'.receipt_to_tx = c.receipt_to_tx := by
  unfold process_chunk_receipt at h
  revert h
  split
  · intro h
    injection h with h
    rw [← h]
    exact ⟨rfl, rfl⟩
  · intro h
    rw [insert_data_receipt_ok c _ _ c' h]
    exact ⟨rfl, rfl⟩

theorem chunk_tx_fold_rtxinv (hr : BlockHeaderView) :
    ∀ (txs : List IndexerTransactionWithOutcome) (c c' : TxCache),
      foldE (process_chunk_transaction hr) c txs = .ok c' →
      RtxInv c →
      (txs.map (fun t => t.transaction.hash)).Nodup →
      (∀ t ∈ txs, mlookup c.transactions t.transaction.hash = none) →
      RtxInv c' ∧
      ∀ x, (∀ t ∈ txs, ¬ x = t.transaction.hash) →
        mlookup c'.transactions x = mlookup c.transactions x := by
  intro txs
  induction txs with
  | nil =>
    intro c c' h hinv _ _
    rw [foldE] at h
    injection h with h
    rw [← h]
    exact ⟨hinv, fun x _ => rfl⟩
  | cons t rest ih =>
    intro c c' h hinv hnodup habs
    have hn : (∀ x ∈ rest, ¬ x.transaction.hash = t.transaction.hash) ∧
        (rest.map (fun y => y.transaction.hash)).Nodup := by simpa using hnodup
    rw [foldE] at h
    revert h
    cases hstep : process_chunk_transaction hr c t with
    | error e => intro h; exact Except.noConfusion h
    | ok c1 =>
      intro h
      unfold process_chunk_transaction at hstep
      dsimp only at hstep
      rcases insert_transaction_ok _ _ _ _ hstep with ⟨_, _, htx, _, _, _⟩
      simp only [PendingTransaction.transaction_hash] at htx
      have hinv1 : RtxInv c1 :=
        insert_transaction_rtxinv _ _ _ _ hstep hinv.tx_key hinv.mapped
          (fun r t' hrt _ => hinv.owner r t' hrt)
          (fun r hrp => Or.inl hrp)
          (fun r hrid => hrid)
          (fun r hmap => by
            exfalso
            rcases hinv.owner r _ hmap with ⟨q, hq, _⟩
            have h2 : mlookup c.transactions t.transaction.hash = some q := hq
            rw [habs t (List.mem_cons_self t rest)] at h2
            exact Option.noConfusion h2)
      have habs1 : ∀ t' ∈ rest, mlookup c1.transactions t'.transaction.hash = none := by
        intro t' ht'
        rw [htx, if_neg (fun he => hn.1 t' ht' he)]
        exact habs t' (List.mem_cons_of_mem t ht')
      rcases ih c1 c' h hinv1 hn.2 habs1 with ⟨hinv', hbook⟩
      refine ⟨hinv', ?_⟩
      intro x hx
      rw [hbook x (fun t' ht' => hx t' (List.mem_cons_of_mem t ht')), htx,
        if_neg (fun he => hx t (List.mem_cons_self t rest) he)]

theorem chunk_pass_rtxinv (hr : BlockHeaderView) :
    ∀ (shards : List IndexerShard) (c c' : TxCache),
      chunk_pass hr c shards = .ok c' →
      RtxInv c →
      ((chunkTxs shards).map (fun t => t.transaction.hash)).Nodup →
      (∀ t ∈ chunkTxs shards, mlookup c.transactions t.transaction.hash = none) →
      RtxInv c' ∧
      ∀ x, (∀ t ∈ chunkTxs shards, ¬ x = t.transaction.hash) →
        mlookup c'.transactions x = mlookup c.transactions x := by
  intro shards
  induction shards with
  | nil =>
    intro c c' h hinv _ _
    unfold chunk_pass at h
    rw [foldE] at h
    injection h with h
    rw [← h]
    exact ⟨hinv, fun x _ => rfl⟩
  | cons shard rest ih =>
    intro c c' h hinv hnodup habs
    unfold chunk_pass at h
    rw [foldE] at h
    revert h
    cases hch : shard.chunk with
    | none =>
      intro h
      dsimp only at h
      have hct : chunkTxs (shard :: rest) = chunkTxs rest := by
        rw [chunkTxs, hch]
        exact List.nil_append _
      rw [hct] at hnodup habs ⊢
      exact ih c c' h hinv hnodup habs
    | some chunk =>
      intro h
      dsimp only at h
      have hct : chunkTxs (shard :: rest) = chunk.transactions ++ chunkTxs rest := by
        rw [chunkTxs, hch]
      rw [hct] at hnodup habs ⊢
      rw [List.map_append] at hnodup
      rcases List.nodup_append.mp hnodup with ⟨hn1, hn2, hdisj⟩
      revert h
      cases hft : foldE (process_chunk_transaction hr) c chunk.transactions with
      | error e => intro h; exact Except.noConfusion h
      | ok c1 =>
        intro h
        dsimp only at h
        revert h
        cases hfr : foldE process_chunk_receipt c1 chunk.receipts with
        | error e => intro h; exact Except.noConfusion h
        | ok c2 =>
          intro h
          dsimp only at h
          rcases chunk_tx_fold_rtxinv hr chunk.transactions c c1 hft hinv hn1
            (fun t htm => habs t (List.mem_append.mpr (Or.inl htm))) with ⟨hinv1, hbook1⟩
          have hfields : c2.transactions = c1.transactions ∧
              c2.receipt_to_tx = c1.receipt_to_tx :=
            foldE_preserves _
              (fun s => s.transactions = c1.transactions ∧
                s.receipt_to_tx = c1.receipt_to_tx)
              (fun s x s' hsx hp => by
                rcases process_chunk_receipt_fields s x s' hsx with ⟨h1, h2⟩
                exact ⟨h1.trans hp.1, h2.trans hp.2⟩)
              chunk.receipts c1 c2 hfr ⟨rfl, rfl⟩
          have hinv2 : RtxInv c2 := rtxinv_congr c1 c2 hfields.1 hfields.2 hinv1
          have habs2 : ∀ t' ∈ chunkTxs rest,
              mlookup c2.transactions t'.transaction.hash = none := by
            intro t' ht'
            rw [hfields.1,
              hbook1 _ (fun t htm he => hdisj (by
                have he2 : t'.transaction.hash = t.transaction.hash := he
                rw [he2]
                exact List.mem_map_of_mem _ htm) (List.mem_map_of_mem _ ht'))]
            exact habs t' (List.mem_append.mpr (Or.inr ht'))
          rcases ih c2 c' h hinv2 hn2 habs2 with ⟨hinv', hbook2⟩
          refine ⟨hinv', ?_⟩
          intro x hx
          rw [hbook2 x (fun t htm => hx t (List.mem_append.mpr (Or.inr htm))),
            hfields.1,
            hbook1 x (fun t htm => hx t (List.mem_append.mpr (Or.inl htm)))]

/-- `process_block` preserves the receipt→tx sync invariant, provided the
block's submitted transaction hashes are pairwise distinct and not already
cached. -/
theorem process_block_rtxinv (ctx : ExtractCtx) (pr : Params) (wl : List WatchListEntry)
    (st : ProcState) (block : BlockWithTxHashes) (ldb : BlockHeight) (st' : ProcState)
    (hrun : process_block ctx pr wl st block ldb = .ok st')
    (hinv : RtxInv st.cache)
    (hnodup : ((chunkTxs block.shards).map (fun t => t.transaction.hash)).Nodup)
    (hfresh : ∀ t ∈ chunkTxs block.shards,
      mlookup st.cache.transactions t.transaction.hash = none) :
    RtxInv st'.cache := by
  unfold process_block at hrun
  dsimp only at hrun
  split at hrun
  · exact Except.noConfusion hrun
  next cache0 hbh =>
    split at hrun
    · exact Except.noConfusion hrun
    next cache1 hcp =>
      split at hrun
      · exact Except.noConfusion hrun
      next cache2 complete_transactions hop =>
        have hc0 : cache0.transactions = st.cache.transactions ∧
            cache0.receipt_to_tx = st.cache.receipt_to_tx := by
          rw [insert_block_header_ok st.cache block.block.header cache0 hbh]
          exact ⟨rfl, rfl⟩
        have hinv0 : RtxInv cache0 := rtxinv_congr st.cache cache0 hc0.1 hc0.2 hinv
        have hfresh0 : ∀ t ∈ chunkTxs block.shards,
            mlookup cache0.transactions t.transaction.hash = none := by
          intro t htm
          rw [hc0.1]
          exact hfresh t htm
        have hinv1 : RtxInv cache1 :=
          (chunk_pass_rtxinv block.block.header block.shards cache0 cache1 hcp hinv0
            hnodup hfresh0).1
        have hinv2 : RtxInv cache2 :=
          (outcome_pass_rtxinv ctx wl _ _ (cache1, []) block.shards hinv1).1
            (cache2, complete_transactions) hop
        have hinv3 : RtxInv cache2.trim_headers :=
          rtxinv_congr cache2 cache2.trim_headers rfl rfl hinv2
        revert hrun
        split
        next e hst2 => intro hrun; exact Except.noConfusion hrun
        next st2 hst2 =>
          intro hrun
          injection hrun with hrun
          have hst2inv : RtxInv st2.cache := by
            revert hst2
            split
            · intro hst2
              exact foldE_preserves _ (fun s => RtxInv s.cache)
                (fun s x s' hsx hp =>
                  let r := process_transaction_tx_fields ctx s x s' hsx
                  rtxinv_congr s.cache s'.cache r.1 r.2.1 hp)
                complete_transactions _ st2 hst2
                (rtxinv_congr cache2.trim_headers _ rfl rfl hinv3)
            · intro hst2
              injection hst2 with hst2
              rw [← hst2]
              exact rtxinv_congr cache2.trim_headers _ rfl rfl hinv3
          rw [← hrun]
          rw [show (maybe_commit pr st2 block.block.header.height).cache = st2.cache from
            maybe_commit_cache pr st2 block.block.header.height]
          exact hst2inv

/-- C9, amended.  The receipt→tx / transactions sync invariant (every value
of `receipt_to_tx` is the key of a stored transaction that has the mapped
receipt pending, and conversely) implies that every `receipt_to_tx` value is
a key of `transactions`; `process_block` preserves it provided the block's
submitted transaction hashes are pairwise distinct and not already cached;
and under it the outcome pass never reaches the
`expect "Missing transaction for receipt"` branch. -/
theorem c9_receipt_to_tx_sync (ctx : ExtractCtx) (pr : Params)
    (wl : List WatchListEntry) (st : ProcState) (block : BlockWithTxHashes)
    (ldb : BlockHeight)
    (hinv : RtxInv st.cache)
    (hnodup : ((chunkTxs block.shards).map (fun t => t.transaction.hash)).Nodup)
    (hfresh : ∀ t ∈ chunkTxs block.shards,
      mlookup st.cache.transactions t.transaction.hash = none) :
    (∀ r t, mlookup st.cache.receipt_to_tx r = some t →
      ∃ pt, mlookup st.cache.transactions t = some pt) ∧
    (∀ st', process_block ctx pr wl st block ldb = .ok st' → RtxInv st'.cache) ∧
    (∀ skip bh acc shards, RtxInv (Prod.fst acc) →
      outcome_pass ctx wl skip bh acc shards ≠
        .error "Missing transaction for receipt") := by
  refine ⟨?_, ?_, ?_⟩
  · intro r t hrt
    rcases hinv.owner r t hrt with ⟨pt, hpt, _⟩
    exact ⟨pt, hpt⟩
  · intro st' hrun
    exact process_block_rtxinv ctx pr wl st block ldb st' hrun hinv hnodup hfresh
  · intro skip bh acc shards hacc
    exact (outcome_pass_rtxinv ctx wl skip bh acc shards hacc).2

theorem c9_receipt_to_tx_sync_witness :
    (∀ r t, mlookup initProcState.cache.receipt_to_tx r = some t →
      ∃ pt, mlookup initProcState.cache.transactions t = some pt) ∧
    (∀ st', process_block ctxW prW [] initProcState blockW 0 = .ok st' →
      RtxInv st'.cache) ∧
    (∀ skip bh acc shards, RtxInv (Prod.fst acc) →
      outcome_pass ctxW [] skip bh acc shards ≠
        .error "Missing transaction for receipt") :=
  c9_receipt_to_tx_sync ctxW prW [] initProcState blockW 0
    ⟨fun _ _ hpt => Option.noConfusion hpt,
     fun _ _ hpt => Option.noConfusion hpt,
     fun _ _ hrt => Option.noConfusion hrt⟩
    (by decide)
    (fun _ _ => rfl)

/-- C9 counterexample, block 1: two submitted transactions share hash `5`
(spawning receipts `11` and `12` respectively); receipt `12`'s outcome
executes in the same block. -/
def c9TxA : IndexerTransactionWithOutcome :=
  { transaction := { hash := 5, signer_id := "a" }
    execution_outcome :=
      { proof := [], block_hash := 90, id := 41
        outcome :=
          { logs := [], receipt_ids := [11], gas_burnt := 1, tokens_burnt := 1
            executor_id := "a", status := 0
            metadata := { version := 1, gas_profile := none } } } }

def c9TxB : IndexerTransactionWithOutcome :=
  { transaction := { hash := 5, signer_id := "b" }
    execution_outcome :=
      { proof := [], block_hash := 90, id := 42
        outcome :=
          { logs := [], receipt_ids := [12], gas_burnt := 1, tokens_burnt := 1
            executor_id := "b", status := 0
            metadata := { version := 1, gas_profile := none } } } }

def c9Out12 : IndexerExecutionOutcomeWithReceipt :=
  { execution_outcome :=
      { proof := [], block_hash := 90, id := 12
        outcome :=
          { logs := [], receipt_ids := [], gas_burnt := 1, tokens_burnt := 1
            executor_id := "b", status := 0
            metadata := { version := 1, gas_profile := none } } }
    receipt :=
      { predecessor_id := "a", receiver_id := "b", receipt_id := 12
        receipt := .action [] [] } }

def c9Block1 : BlockWithTxHashes :=
  { block := { header := { height := 1, hash := 90, timestamp := 7 } }
    shards :=
      [{ chunk := some { transactions := [c9TxA, c9TxB], receipts := [] }
         receipt_execution_outcomes := [c9Out12] }] }

/-- C9 counterexample, block 2: receipt `11`'s outcome executes. -/
def c9Out11 : IndexerExecutionOutcomeWithReceipt :=
  { execution_outcome :=
      { proof := [], block_hash := 91, id := 11
        outcome :=
          { logs := [], receipt_ids := [], gas_burnt := 1, tokens_burnt := 1
            executor_id := "a", status := 0
            metadata := { version := 1, gas_profile := none } } }
    receipt :=
      { predecessor_id := "a", receiver_id := "b", receipt_id := 11
        receipt := .action [] [] } }

def c9Block2 : BlockWithTxHashes :=
  { block := { header := { height := 2, hash := 91, timestamp := 8 } }
    shards := [{ chunk := none, receipt_execution_outcomes := [c9Out11] }] }

def c9St1 : ProcState :=
  (process_block ctxW prW [] initProcState c9Block1 0).toOption.getD initProcState

/-- C9 counterexample.  After successfully processing block 1 — whose chunk
submits two transactions with the same hash `5` — receipt `11` still maps to
hash `5` in `receipt_to_tx` while `5` is no longer a key of `transactions`:
the claimed invariant does not hold unconditionally.  Executing receipt `11`
in block 2 then actually reaches the claimed-unreachable
`expect "Missing transaction for receipt"` branch. -/
theorem c9_counterexample :
    process_block ctxW prW [] initProcState c9Block1 0 = .ok c9St1 ∧
    mlookup c9St1.cache.receipt_to_tx 11 = some 5 ∧
    mlookup c9St1.cache.transactions 5 = none ∧
    process_block ctxW prW [] c9St1 c9Block2 0 =
      .error "Missing transaction for receipt" :=
  ⟨rfl, rfl, rfl, rfl⟩
